import Mathlib

/-!
Verification of the news_project streaming enrichment pipeline.

This file shallowly embeds the pipeline core of the repository
(`newsbot/storage.py`, `kafka/kafka_producer.py`, `newsbot/kafka_utils.py`,
`newsbot/kafka_scraper_consumer.py`, `newsbot/kafka_scraper_async_consumer.py`)
and proves properties of the embedded definitions.

Modelling conventions used throughout:
* Python dictionaries with a fixed set of keys become Lean structures; a key
  that may be absent becomes an `Option` field (`none` = key not present).
* Python string truthiness (`if s:`) becomes an emptiness test.  Where the
  source only ever observes a stored value through truthiness (SQL `NULL`
  versus the empty string in `storage.py`, which every read site collapses via
  `if not existing.full_content` or `nullif(col, '')`), the two observationally
  equal representations are collapsed to the single value `""`.
* External collaborators (the scrape call, the broker client) are modelled by
  the outcome they report to the code under verification: an `Option` result
  for the scrape, a success/raise flag for each `produce` call.
* Exceptions become explicit control flow: a raising call site is modelled by
  the branch the surrounding `try`/`except` takes.
-/

/-! ## Storage layer: `newsbot/storage.py`, `NewsStorage.save_article`

The `Article` ORM row (from `newsbot/models.py`, whose source is not in the
tree; its shape is reconstructed from `storage.py` and the spec: a row uniquely
keyed by `link` with a summary `content` field and a nullable `full_content`
field).  The `FullContentStatus` enum from the same missing module is
abstracted: `Status` is an arbitrary type, `statusOf` models the
`FullContentStatus(s)` constructor call (returning `none` where Python raises
`ValueError`), and `successTag` models `FullContentStatus.SUCCESS`. -/

namespace Storage

/-- An article dict passed to `save_article`.  The six required keys may be
absent (`none`).  `full_content` is always read with `.get`, so an absent key
and Python `None` behave identically there; both are collapsed to `""`. -/
structure ArticleInput where
  title : Option String
  link : Option String
  publish_date : Option String
  source : Option String
  category : Option String
  content : Option String
  full_content : String
  full_content_status : Option String
deriving Repr, DecidableEq

/-- A persisted `Article` row.  String columns collapse SQL `NULL` and `""`
(observationally equal in `storage.py`) to `""`. -/
structure Row (Status : Type) where
  title : String
  link : String
  publish_date : String
  source : String
  category : String
  content : String
  full_content : String
  full_content_status : Option Status
deriving Repr, DecidableEq

/-- Python truthiness of `article.get(k)`: key present with a non-empty value. -/
def truthy : Option String → Bool
  | none => false
  | some s => !s.isEmpty

/-- The `for k in required: if k not in article` guard of `save_article`. -/
def hasRequired (a : ArticleInput) : Bool :=
  a.title.isSome && a.link.isSome && a.publish_date.isSome &&
    a.source.isSome && a.category.isSome && a.content.isSome

variable {Status : Type} [DecidableEq Status]

/-- Line `if not existing.content and article.get("content"): existing.content = ...`. -/
def updContent (a : ArticleInput) (e : Row Status) : Row Status :=
  if e.content = "" ∧ truthy a.content then { e with content := a.content.getD "" } else e

/-- Line `if article.get("title") and article["title"] != existing.title: ...`. -/
def updTitle (a : ArticleInput) (e : Row Status) : Row Status :=
  if truthy a.title ∧ a.title.getD "" ≠ e.title then { e with title := a.title.getD "" } else e

/-- The analogous update line for `publish_date`. -/
def updPublishDate (a : ArticleInput) (e : Row Status) : Row Status :=
  if truthy a.publish_date ∧ a.publish_date.getD "" ≠ e.publish_date then
    { e with publish_date := a.publish_date.getD "" } else e

/-- The analogous update line for `source`. -/
def updSource (a : ArticleInput) (e : Row Status) : Row Status :=
  if truthy a.source ∧ a.source.getD "" ≠ e.source then
    { e with source := a.source.getD "" } else e

/-- The analogous update line for `category`. -/
def updCategory (a : ArticleInput) (e : Row Status) : Row Status :=
  if truthy a.category ∧ a.category.getD "" ≠ e.category then
    { e with category := a.category.getD "" } else e

/-- The five metadata update statements of the `if existing:` block, in source
order (`content`, `title`, `publish_date`, `source`, `category`). -/
def updMeta (a : ArticleInput) (e : Row Status) : Row Status :=
  updCategory a (updSource a (updPublishDate a (updTitle a (updContent a e))))

/-- The `full_content` / `full_content_status` update at the end of the
`if existing:` block. -/
def updFullContent (statusEnum : Option Status) (successTag : Status)
    (a : ArticleInput) (e : Row Status) : Row Status :=
  if a.full_content ≠ "" ∧ e.full_content = "" then
    { e with
      full_content := a.full_content
      full_content_status := some (statusEnum.getD successTag) }
  else
    match statusEnum with
    | some st => if e.full_content_status ≠ some st then
        { e with full_content_status := some st } else e
    | none => e

/-- Replace the row keyed by `l` in the table. -/
def updateRow (l : String) (e : Row Status) (db : List (Row Status)) : List (Row Status) :=
  db.map (fun r => if r.link = l then e else r)

/-- The `status_enum` computed at the top of `save_article` (the
`FullContentStatus(desired_status)` call; an unknown tag only logs a warning
and leaves `status_enum = None`). -/
def statusEnumOf (statusOf : String → Option Status) (a : ArticleInput) : Option Status :=
  match a.full_content_status with
  | some s => statusOf s
  | none => none

/-- The freshly inserted `Article(...)` record of the `existing is None` branch. -/
def insertRow (statusOf : String → Option Status) (successTag : Status)
    (a : ArticleInput) : Row Status :=
  { title := a.title.getD ""
    link := a.link.getD ""
    publish_date := a.publish_date.getD ""
    source := a.source.getD ""
    category := a.category.getD ""
    content := a.content.getD ""
    full_content := a.full_content
    full_content_status :=
      match statusEnumOf statusOf a with
      | some st => some st
      | none => if a.full_content ≠ "" then some successTag else none }

/-- Embedding of `NewsStorage.save_article`.  The database is the list of
stored rows (the `link` column is unique); the function returns the `inserted`
flag together with the post-commit table.  The sequential model has no
concurrent writer, so the `IntegrityError` recovery branch of the source is
unreachable and the defensive outer `except` never fires. -/
def save_article (statusOf : String → Option Status) (successTag : Status)
    (a : ArticleInput) (db : List (Row Status)) : Bool × List (Row Status) :=
  if hasRequired a then
    let l := a.link.getD ""
    match db.find? (fun r => r.link = l) with
    | none =>
        (true, db ++ [insertRow statusOf successTag a])
    | some existing =>
        let e := updFullContent (statusEnumOf statusOf a) successTag a (updMeta a existing)
        (false, updateRow l e db)
  else
    (false, db)

end Storage

/-! ## Producer pipeline: `kafka/kafka_producer.py`, `produce_batch`

The external fetch collaborator and the broker are abstracted by the outcome
each `producer.produce` call reports for a record: the first attempt either
returns, raises `BufferError`, or raises some other exception; the retry after
the synchronous flush either returns or raises. -/

namespace RssProducer

/-- Outcome of the first `producer.produce` call for one record. -/
inductive FirstAttempt
  | ok
  | bufferFull
  | raised
deriving Repr, DecidableEq

/-- One flattened article record together with the broker behaviour it meets. -/
structure RecordSpec where
  first : FirstAttempt
  retryOk : Bool
deriving Repr, DecidableEq

/-- Producer-side observable state: the local `produced` counter, the two
`PRODUCER_METRICS` entries the function touches, and counts of the synchronous
flushes and retry publishes performed. -/
structure ProducerState where
  produced : Nat
  messages_produced : Nat
  produce_errors : Nat
  flushes : Nat
  retries : Nat
deriving Repr, DecidableEq

def initProducerState : ProducerState :=
  { produced := 0, messages_produced := 0, produce_errors := 0, flushes := 0, retries := 0 }

/-- The body of the `for art in flat:` loop of `produce_batch` for one record. -/
def produceOne (r : RecordSpec) (s : ProducerState) : ProducerState :=
  match r.first with
  | .ok =>
      { s with produced := s.produced + 1, messages_produced := s.messages_produced + 1 }
  | .bufferFull =>
      let s1 := { s with flushes := s.flushes + 1, retries := s.retries + 1 }
      if r.retryOk then
        { s1 with produced := s1.produced + 1, messages_produced := s1.messages_produced + 1 }
      else
        { s1 with produce_errors := s1.produce_errors + 1 }
  | .raised =>
      { s with produce_errors := s.produce_errors + 1 }

/-- Embedding of `produce_batch`: iterate over the flattened records, then
perform the final bounded `flush_producer`, and return the count of
successfully submitted messages. -/
def produce_batch (recs : List RecordSpec) : Nat × ProducerState :=
  let s := recs.foldl (fun s r => produceOne r s) initProducerState
  let s1 := { s with flushes := s.flushes + 1 }
  (s1.produced, s1)

/-- A record whose publish was eventually submitted: first attempt succeeded,
or the first attempt hit a full buffer and the post-flush retry succeeded. -/
def submitted (r : RecordSpec) : Bool :=
  r.first = .ok || (r.first = .bufferFull && r.retryOk)

/-- A record counted as a produce error. -/
def erred (r : RecordSpec) : Bool :=
  r.first = .raised || (r.first = .bufferFull && !r.retryOk)

/-- A record that hit local buffer exhaustion on its first attempt. -/
def hitBuffer (r : RecordSpec) : Bool :=
  r.first = .bufferFull

end RssProducer

/-! ## Sync consumer pipeline: `newsbot/kafka_scraper_consumer.py`, `run_consumer`

One loop iteration polls at most one message.  A polled message carries the
behaviour of every collaborator it meets: the decode result (`none` models a
raised `from_json` error), the scrape outcome of `enrich_single` (`none` on
failure), and whether each of the two `producer.produce` calls (cleaned topic,
alerts topic) returns or raises.  The shutdown flag is never set in the model
(no signal arrives), matching a run that is not interrupted. -/

namespace SyncConsumer

/-- Fields of a decoded `ArticleSummaryEnvelope` payload as the consumer reads
them with `payload.get` (every field may be absent; the source supplies
defaults for all but `link`). -/
structure Payload where
  title : Option String
  link : Option String
  publish_date : Option String
  source : Option String
  category : Option String
  summary : Option String
deriving Repr, DecidableEq

/-- Collaborator behaviour met by one polled Kafka message. -/
structure MsgSpec where
  decoded : Option Payload
  scrape : Option String
  cleanedOk : Bool
  alertOk : Bool
deriving Repr, DecidableEq

/-- One `consumer.poll` result: timeout, a broker-level error message, or a
payload-bearing message. -/
inductive PollEvent
  | noMsg
  | brokerErr
  | msg (m : MsgSpec)
deriving Repr, DecidableEq

/-- The metric counters the consumer loop touches.  The dictionaries also
declare a `processing_` `partial` entry, but no pipeline ever writes it, so it
is omitted. -/
structure Metrics where
  messages_consumed : Nat
  processing_success : Nat
  processing_failures : Nat
  messages_produced : Nat
  produce_errors : Nat
deriving Repr, DecidableEq

/-- An `AlertEnvelope` as produced to the alerts topic (the timestamp field is
wall-clock output and not modelled). -/
structure Alert where
  type : String
  error : String
deriving Repr, DecidableEq

/-- The part of an `EnrichedArticleEnvelope` publish the claims observe. -/
structure CleanedMsg where
  link : Option String
  full_content : String
deriving Repr, DecidableEq

/-- Observable consumer state: metrics, the number of `consumer.commit` calls,
the `producer.produce` calls made to each topic, the local `processed`
counter, and the storage table. -/
structure ConsumerState where
  metrics : Metrics
  commits : Nat
  cleaned : List CleanedMsg
  alerts : List Alert
  processed : Nat
  db : List (Storage.Row String)
deriving Repr, DecidableEq

def initConsumerState : ConsumerState :=
  { metrics := { messages_consumed := 0, processing_success := 0,
                 processing_failures := 0, messages_produced := 0, produce_errors := 0 }
    commits := 0, cleaned := [], alerts := [], processed := 0, db := [] }

/-- The article dict the consumer passes to `storage.save_article` (all seven
keys present; a `None` link value is collapsed to `""`, which `save_article`
only ever compares for equality against other stored links). -/
def storageArticle (p : Payload) (fc : String) : Storage.ArticleInput :=
  { title := some (p.title.getD "")
    link := some (p.link.getD "")
    publish_date := some (p.publish_date.getD "")
    source := some (p.source.getD "Unknown")
    category := some (p.category.getD "uncategorized")
    content := some (p.summary.getD "")
    full_content := fc
    full_content_status := none }

/-- The `except Exception` handler of the per-message `try`: count the
failure, then best-effort-produce one alert whose own error (`m.alertOk`
false) is swallowed by the inner `except: pass`. -/
def failPath (err : String) (s : ConsumerState) : ConsumerState :=
  let s1 : ConsumerState := { s with metrics :=
    { s.metrics with processing_failures := s.metrics.processing_failures + 1 } }
  { s1 with alerts := s1.alerts ++ [{ type := "enrichment_failure", error := err }] }

/-- The body of the consumer loop for one successfully polled message
(`newsbot/kafka_scraper_consumer.py` lines 75-133). -/
def processMessage (m : MsgSpec) (s : ConsumerState) : ConsumerState :=
  let s0 : ConsumerState := { s with metrics :=
    { s.metrics with messages_consumed := s.metrics.messages_consumed + 1 } }
  match m.decoded with
  | none => failPath "decode error" s0
  | some p =>
      match m.scrape with
      | none => failPath "Full content fetch failed" s0
      | some fc =>
          let s1 : ConsumerState := { s0 with
            db := (Storage.save_article (fun _ => none) "success" (storageArticle p fc) s0.db).2 }
          let s2 : ConsumerState :=
            if m.cleanedOk then
              { s1 with
                metrics := { s1.metrics with
                  messages_produced := s1.metrics.messages_produced + 1 }
                cleaned := s1.cleaned ++ [{ link := p.link, full_content := fc }] }
            else
              { s1 with
                metrics := { s1.metrics with
                  produce_errors := s1.metrics.produce_errors + 1 }
                cleaned := s1.cleaned ++ [{ link := p.link, full_content := fc }] }
          { s2 with
            commits := s2.commits + 1
            metrics := { s2.metrics with
              processing_success := s2.metrics.processing_success + 1 }
            processed := s2.processed + 1 }

/-- The `if not loop_forever and processed >= (max_messages or 0): break`
check (evaluated after a timed-out poll and after each processed message). -/
def stopNow (loopForever : Bool) (maxMessages : Option Nat) (s : ConsumerState) : Bool :=
  !loopForever && decide (maxMessages.getD 0 ≤ s.processed)

/-- Embedding of the `run_consumer` polling loop over a finite list of poll
results.  Returns the final state together with the poll results the loop
never consumed (empty unless a break fired early). -/
def run_consumer (loopForever : Bool) (maxMessages : Option Nat) :
    List PollEvent → ConsumerState → ConsumerState × List PollEvent
  | [], s => (s, [])
  | e :: rest, s =>
      match e with
      | .noMsg =>
          if stopNow loopForever maxMessages s then (s, rest)
          else run_consumer loopForever maxMessages rest s
      | .brokerErr => run_consumer loopForever maxMessages rest s
      | .msg m =>
          let s1 := processMessage m s
          if stopNow loopForever maxMessages s1 then (s1, rest)
          else run_consumer loopForever maxMessages rest s1

/-- A poll result the loop counts in `processed`: a message whose decode and
enrichment both succeed (only SUCCESS outcomes increment `processed`). -/
def isSuccessEvent : PollEvent → Bool
  | .msg m => m.decoded.isSome && m.scrape.isSome
  | _ => false

/-- Modelled from the spec side for the amended one-shot claim: the poll
results left unconsumed when the loop stops right at the event carrying the
`n`-th SUCCESS outcome (all events are consumed when fewer than `n` successes
occur). -/
def remAfterNthSuccess : Nat → List PollEvent → List PollEvent
  | _, [] => []
  | n, e :: rest =>
      if isSuccessEvent e then
        if n ≤ 1 then rest else remAfterNthSuccess (n - 1) rest
      else remAfterNthSuccess n rest

/-- A concrete decoded payload used by witnesses and counterexamples. -/
def samplePayload : Payload :=
  { title := some "T", link := some "http://x", publish_date := some "",
    source := some "S", category := some "tech", summary := some "c" }

/-- A concrete message whose enrichment fails. -/
def sampleFailMsg : MsgSpec :=
  { decoded := some samplePayload, scrape := none, cleanedOk := true, alertOk := false }

/-- A concrete message whose processing fully succeeds. -/
def sampleSuccMsg : MsgSpec :=
  { decoded := some samplePayload, scrape := some "FULL", cleanedOk := true, alertOk := true }

/-- A concrete message that succeeds except for the cleaned-topic publish. -/
def samplePublishFailMsg : MsgSpec :=
  { decoded := some samplePayload, scrape := some "FULL", cleanedOk := false, alertOk := true }

end SyncConsumer

/-! ## Async consumer pipeline: `newsbot/kafka_scraper_async_consumer.py`

Small-step interleaving semantics for `run_async_consumer` (with
`max_messages = None` and no shutdown signal) and the `process_message` units
it spawns.  The main coroutine polls one batch per iteration, creates one task
per message, awaits them all (`asyncio.gather`), and then calls
`consumer.commit()` once for the batch.  Each unit takes the
`asyncio.Semaphore(CONCURRENCY)` before doing its work and releases it when it
completes; whether the unit ends in SUCCESS or FAILURE, `gather` with
`return_exceptions=True` (and the unit's own `except` handler) waits for it
the same way.  A scheduler step either advances the main coroutine (when
runnable) or one unit task; quantifying over all choice sequences covers every
cooperative interleaving the event loop could produce. -/

namespace AsyncConsumer

/-- One unit of work (one `process_message` task): how many scheduler steps
its enrichment takes while holding a semaphore permit, and whether it ends in
SUCCESS (`true`) or FAILURE. -/
structure UnitSpec where
  steps : Nat
  ok : Bool
deriving Repr, DecidableEq

/-- Phase of one task of the current batch: waiting on `async with semaphore`,
holding a permit with some work steps left, or completed. -/
inductive Phase
  | waiting
  | running (left : Nat)
  | finished
deriving Repr, DecidableEq

/-- One spawned `asyncio.Task` for a message of the current batch. -/
structure Task where
  idx : Nat
  spec : UnitSpec
  phase : Phase
deriving Repr, DecidableEq

/-- What the main coroutine is doing: about to poll the next batch, awaiting
`asyncio.gather` on the current batch, or out of input. -/
inductive MainPhase
  | polling
  | gathering
  | stopped
deriving Repr, DecidableEq

/-- Observable events: a unit of work reaching its terminal state (SUCCESS or
FAILURE), and the per-batch `consumer.commit()`. -/
inductive Event
  | unitDone (batch idx : Nat) (ok : Bool)
  | commit (batch : Nat)
deriving Repr, DecidableEq

/-- A configuration of the whole async consumer. -/
structure Config where
  bound : Nat
  sem : Nat
  pending : List (List UnitSpec)
  cur : Nat
  tasks : List Task
  main : MainPhase
  trace : List Event
deriving Repr, DecidableEq

/-- Spawn tasks for the messages of a polled batch, indexed from `i`. -/
def spawnFrom (i : Nat) : List UnitSpec → List Task
  | [] => []
  | u :: rest => { idx := i, spec := u, phase := .waiting } :: spawnFrom (i + 1) rest

/-- A scheduler choice: advance the main coroutine, or the task with index `j`
of the current batch. -/
inductive Choice
  | mainStep
  | taskStep (j : Nat)
deriving Repr, DecidableEq

/-- One small step of the chosen coroutine, if it is runnable.  The main
coroutine in `gathering` state is runnable only when every task of the current
batch has finished (that is what `await asyncio.gather` waits for); a waiting
task is runnable only when a semaphore permit is free; a finished task and a
stopped main coroutine are never runnable. -/
def step (c : Config) : Choice → Option Config
  | .mainStep =>
      match c.main with
      | .stopped => none
      | .gathering =>
          if c.tasks.all (fun t => t.phase = .finished) then
            some { c with
              trace := c.trace ++ [.commit c.cur]
              tasks := []
              cur := c.cur + 1
              main := .polling }
          else none
      | .polling =>
          match c.pending with
          | [] => some { c with main := .stopped }
          | b :: rest =>
              if b.isEmpty then
                some { c with pending := rest, cur := c.cur + 1 }
              else
                some { c with pending := rest, main := .gathering, tasks := spawnFrom 0 b }
  | .taskStep j =>
      match c.tasks.get? j with
      | none => none
      | some t =>
          match t.phase with
          | .waiting =>
              if 0 < c.sem then
                some { c with
                  sem := c.sem - 1
                  tasks := c.tasks.set j { t with phase := .running t.spec.steps } }
              else none
          | .running (left + 1) =>
              some { c with tasks := c.tasks.set j { t with phase := .running left } }
          | .running 0 =>
              some { c with
                sem := c.sem + 1
                tasks := c.tasks.set j { t with phase := .finished }
                trace := c.trace ++ [.unitDone c.cur t.idx t.spec.ok] }
          | .finished => none

/-- Run a whole choice sequence; choices that are not runnable are skipped. -/
def run (c : Config) : List Choice → Config
  | [] => c
  | ch :: rest =>
      match step c ch with
      | some c2 => run c2 rest
      | none => run c rest

/-- The initial configuration: `bound = CONCURRENCY` free permits, the polled
batches still pending, nothing spawned, nothing in the trace. -/
def initConfig (bound : Nat) (batches : List (List UnitSpec)) : Config :=
  { bound := bound
    sem := bound
    pending := batches
    cur := 0
    tasks := []
    main := .polling
    trace := [] }

/-- A task currently holding a semaphore permit (an enrichment in flight). -/
def isRunning : Phase → Bool
  | .running _ => true
  | _ => false

/-- Number of units in flight simultaneously. -/
def runningCount (c : Config) : Nat :=
  c.tasks.countP (fun t => isRunning t.phase)

/-- Whether the completion event of unit `i` of batch `k` is in the trace. -/
def donePresent (k i : Nat) (tr : List Event) : Bool :=
  tr.any (fun e =>
    match e with
    | .unitDone k2 i2 _ => k2 == k && i2 == i
    | _ => false)

/-- Number of `consumer.commit()` calls recorded for batch `k`. -/
def commitCount (k : Nat) (tr : List Event) : Nat :=
  tr.countP (fun e =>
    match e with
    | .commit k2 => k2 == k
    | _ => false)

/-- The invariant tying a reachable configuration to the original batch list
`B` and the concurrency bound `N`. -/
structure Inv (N : Nat) (B : List (List UnitSpec)) (c : Config) : Prop where
  bound_eq : c.bound = N
  sem_total : c.sem + runningCount c = N
  polling_tasks : c.main = .polling → c.tasks = []
  stopped_shape : c.main = .stopped → c.tasks = [] ∧ B.length ≤ c.cur ∧ c.pending = []
  pending_polling : c.main = .polling → c.pending = B.drop c.cur
  pending_gathering : c.main = .gathering →
    c.pending = B.drop (c.cur + 1) ∧ B.getD c.cur [] ≠ []
  tasks_len : c.main = .gathering → c.tasks.length = (B.getD c.cur []).length
  tasks_idx : c.main = .gathering → ∀ j, (h : j < c.tasks.length) →
    (c.tasks.get ⟨j, h⟩).idx = j
  done_iff : c.main = .gathering → ∀ j, (h : j < c.tasks.length) →
    ((c.tasks.get ⟨j, h⟩).phase = .finished ↔ donePresent c.cur j c.trace = true)
  past_nonempty : ∀ k, k < c.cur → B.getD k [] ≠ [] →
    commitCount k c.trace = 1 ∧
      ∀ i, i < (B.getD k []).length → donePresent k i c.trace = true
  past_empty : ∀ k, k < c.cur → B.getD k [] = [] → commitCount k c.trace = 0
  future_uncommitted : ∀ k, c.cur ≤ k → commitCount k c.trace = 0
  done_scope : ∀ k i b, Event.unitDone k i b ∈ c.trace →
    k < c.cur ∨ (c.main = .gathering ∧ k = c.cur)

end AsyncConsumer

/-! ## Message codec: `newsbot/kafka_utils.py`, `to_json` / `from_json`

The codec is a thin wrapper over the Python standard `json` module:
`to_json(data)` is `json.dumps(data, separators=(",", ":"), ensure_ascii=False)
.encode("utf-8")` and `from_json(raw)` is `json.loads(raw)` after UTF-8
decoding.  The embedding models the wire as a Lean `String` (UTF-8
encode/decode is a bijection between byte strings and the well-formed unicode
strings Lean's `String` already quotients over) and models the `json` module
on the JSON grammar it serializes here:

* `dumps` emits compact JSON with no whitespace, escaping exactly `"`, `\`,
  and control characters below 0x20 (short escapes for the usual five,
  `\u00XX` otherwise), leaving all other characters — including non-ASCII —
  verbatim (`ensure_ascii=False`).
* `loads` skips the JSON whitespace characters, accepts all standard escapes
  (including `\uXXXX`), and in its default strict mode rejects raw control
  characters inside string literals.  Numbers are parsed into an exact
  `mantissa × 10^exponent` form; the float-specific corners of the Python
  parser (leading-zero rejection, the NaN/Infinity extensions, lone
  surrogates) play no role in any property proved here and are not refined
  further: every payload this pipeline serializes is built from strings.

Failure (`json.JSONDecodeError`) is `none`. -/

namespace Codec

/-- A parsed JSON value. -/
inductive Jval where
  | null
  | boolean (b : Bool)
  | number (mantissa : Int) (exponent : Int)
  | string (s : String)
  | array (items : List Jval)
  | object (fields : List (String × Jval))
deriving Repr, BEq, Inhabited

/-- Lowercase hexadecimal digit, as `"%04x"` formatting uses. -/
def hexDig (n : Nat) : Char :=
  if n < 10 then Char.ofNat (48 + n) else Char.ofNat (87 + n)

/-- How `json.dumps(..., ensure_ascii=False)` escapes one character of a
string: `"` and `\` always, the five short escapes, `\u00XX` for the other
control characters, and everything else verbatim. -/
def escChar (c : Char) : List Char :=
  if c = '"' then ['\\', '"']
  else if c = '\\' then ['\\', '\\']
  else if c = '\n' then ['\\', 'n']
  else if c = '\r' then ['\\', 'r']
  else if c = '\t' then ['\\', 't']
  else if c = Char.ofNat 8 then ['\\', 'b']
  else if c = Char.ofNat 12 then ['\\', 'f']
  else if c.toNat < 32 then
    ['\\', 'u', '0', '0', hexDig (c.toNat / 16), hexDig (c.toNat % 16)]
  else [c]

/-- A serialized JSON string literal. -/
def encStr (s : String) : List Char :=
  '"' :: (s.data.flatMap escChar ++ ['"'])

/-- Decimal digits of an integer, with sign. -/
def intChars (i : Int) : List Char :=
  if i < 0 then '-' :: Nat.toDigits 10 i.natAbs else Nat.toDigits 10 i.natAbs

/-- Serialization of the numeric constructor (never produced by this
pipeline's envelopes, which are all-string). -/
def numChars (m e : Int) : List Char :=
  intChars m ++ (if e = 0 then [] else 'e' :: intChars e)

mutual

/-- Compact serialization, as `json.dumps` with `separators=(",", ":")`. -/
def renderJ : Jval → List Char
  | .null => ['n', 'u', 'l', 'l']
  | .boolean true => ['t', 'r', 'u', 'e']
  | .boolean false => ['f', 'a', 'l', 's', 'e']
  | .number m e => numChars m e
  | .string s => encStr s
  | .array xs => '[' :: (renderItems xs ++ [']'])
  | .object fs => '{' :: (renderFields fs ++ ['}'])

/-- Array items joined by `,`. -/
def renderItems : List Jval → List Char
  | [] => []
  | [x] => renderJ x
  | x :: y :: rest => renderJ x ++ ',' :: renderItems (y :: rest)

/-- Object members joined by `,`, each `key:value`. -/
def renderFields : List (String × Jval) → List Char
  | [] => []
  | [(k, v)] => encStr k ++ ':' :: renderJ v
  | (k, v) :: f2 :: rest => encStr k ++ ':' :: (renderJ v ++ ',' :: renderFields (f2 :: rest))

end

/-- The JSON whitespace characters `json.loads` skips. -/
def isWS (c : Char) : Bool :=
  c.toNat == 32 || c.toNat == 9 || c.toNat == 10 || c.toNat == 13

def skipWS : List Char → List Char
  | c :: cs => if isWS c then skipWS cs else c :: cs
  | [] => []

def isDigit (c : Char) : Bool :=
  48 ≤ c.toNat && c.toNat ≤ 57

/-- Value of one hexadecimal digit. -/
def hexVal (c : Char) : Option Nat :=
  if 48 ≤ c.toNat ∧ c.toNat ≤ 57 then some (c.toNat - 48)
  else if 97 ≤ c.toNat ∧ c.toNat ≤ 102 then some (c.toNat - 87)
  else if 65 ≤ c.toNat ∧ c.toNat ≤ 70 then some (c.toNat - 55)
  else none

/-- The single-character escapes `json.loads` accepts. -/
def unesc (c : Char) : Option Char :=
  if c = '"' then some '"'
  else if c = '\\' then some '\\'
  else if c = '/' then some '/'
  else if c = 'n' then some '\n'
  else if c = 'r' then some '\r'
  else if c = 't' then some '\t'
  else if c = 'b' then some (Char.ofNat 8)
  else if c = 'f' then some (Char.ofNat 12)
  else none

/-- Body of a string literal after the opening quote.  Strict mode: a raw
control character is a decode error. -/
def parseStrBody (acc : List Char) : List Char → Option (String × List Char)
  | '"' :: rest => some (⟨acc.reverse⟩, rest)
  | '\\' :: 'u' :: a :: b :: c :: d :: rest =>
      match hexVal a, hexVal b, hexVal c, hexVal d with
      | some va, some vb, some vc, some vd =>
          parseStrBody (Char.ofNat (((va * 16 + vb) * 16 + vc) * 16 + vd) :: acc) rest
      | _, _, _, _ => none
  | '\\' :: e :: rest =>
      match unesc e with
      | some c => parseStrBody (c :: acc) rest
      | none => none
  | c :: rest =>
      if c.toNat < 32 then none else parseStrBody (c :: acc) rest
  | [] => none

/-- Digits prefix of the input. -/
def takeDigits : List Char → List Char × List Char
  | [] => ([], [])
  | c :: cs =>
      if isDigit c = false then ([], c :: cs)
      else
        let p := takeDigits cs
        (c :: p.1, p.2)

/-- Optional leading minus sign of a number literal. -/
def splitSign : List Char → Bool × List Char
  | '-' :: r => (true, r)
  | cs => (false, cs)

/-- Optional fractional part of a number literal. -/
def fracPart : List Char → List Char × List Char
  | '.' :: r => takeDigits r
  | cs => ([], cs)

def digitsVal (ds : List Char) : Nat :=
  ds.foldl (fun acc c => acc * 10 + (c.toNat - 48)) 0

/-- Number literal: optional sign, integer digits, optional fraction and
exponent, collected into an exact `mantissa × 10^exponent`. -/
def parseNumber (cs : List Char) : Option (Jval × List Char) :=
  let (neg, cs1) := splitSign cs
  let (ids, cs2) := takeDigits cs1
  if ids.isEmpty then none
  else
    let (fds, cs3) := fracPart cs2
    let (ex, cs4) :=
      match cs3 with
      | 'e' :: r | 'E' :: r =>
          let (esgn, r1) :=
            match r with
            | '+' :: r2 => ((1 : Int), r2)
            | '-' :: r2 => ((-1 : Int), r2)
            | _ => ((1 : Int), r)
          let (eds, r2) := takeDigits r1
          (esgn * (digitsVal eds : Int), r2)
      | _ => ((0 : Int), cs3)
    let m : Int := (if neg then -1 else 1) * (digitsVal (ids ++ fds) : Int)
    some (.number m (ex - (fds.length : Int)), cs4)

mutual

/-- One JSON value, recursive descent with a fuel counter (the callers hand
strictly more fuel than the input length, so fuel never runs out on an
accepted document). -/
def pVal : Nat → List Char → Option (Jval × List Char)
  | 0, _ => none
  | fuel + 1, cs =>
      match skipWS cs with
      | 'n' :: 'u' :: 'l' :: 'l' :: r => some (.null, r)
      | 't' :: 'r' :: 'u' :: 'e' :: r => some (.boolean true, r)
      | 'f' :: 'a' :: 'l' :: 's' :: 'e' :: r => some (.boolean false, r)
      | '"' :: r =>
          match parseStrBody [] r with
          | some (s, r2) => some (.string s, r2)
          | none => none
      | '[' :: r =>
          match skipWS r with
          | [] => none
          | c :: r2 =>
              if c = ']' then some (.array [], r2)
              else
                match pItems fuel (c :: r2) with
                | some (xs, r3) => some (.array xs, r3)
                | none => none
      | '{' :: r =>
          match skipWS r with
          | [] => none
          | c :: r2 =>
              if c = '}' then some (.object [], r2)
              else
                match pFields fuel (c :: r2) with
                | some (fs, r3) => some (.object fs, r3)
                | none => none
      | c :: r =>
          if c == '-' || isDigit c then parseNumber (c :: r) else none
      | [] => none

/-- One-or-more comma-separated array items, consuming the closing `]`. -/
def pItems : Nat → List Char → Option (List Jval × List Char)
  | 0, _ => none
  | fuel + 1, cs =>
      match pVal fuel cs with
      | none => none
      | some (v, r) =>
          match skipWS r with
          | ',' :: r2 =>
              match pItems fuel r2 with
              | some (vs, r3) => some (v :: vs, r3)
              | none => none
          | ']' :: r2 => some ([v], r2)
          | _ => none

/-- One-or-more comma-separated object members, consuming the closing brace. -/
def pFields : Nat → List Char → Option (List (String × Jval) × List Char)
  | 0, _ => none
  | fuel + 1, cs =>
      match skipWS cs with
      | '"' :: r =>
          match parseStrBody [] r with
          | none => none
          | some (k, r1) =>
              match skipWS r1 with
              | ':' :: r2 =>
                  match pVal fuel r2 with
                  | none => none
                  | some (v, r3) =>
                      match skipWS r3 with
                      | ',' :: r4 =>
                          match pFields fuel r4 with
                          | some (fs, r5) => some ((k, v) :: fs, r5)
                          | none => none
                      | '}' :: r4 => some ([(k, v)], r4)
                      | _ => none
              | _ => none
      | _ => none

end

/-- Whole-document parse, the embedding of `json.loads`: one value, then
nothing but whitespace may remain. -/
def loads (s : String) : Option Jval :=
  match pVal (s.data.length + 1) s.data with
  | some (j, r) => if (skipWS r).isEmpty then some j else none
  | none => none

/-- The embedding of `json.dumps(..., separators=(",", ":"),
ensure_ascii=False)`. -/
def dumps (j : Jval) : String :=
  ⟨renderJ j⟩

/-- `to_json` of `kafka_utils.py`: compact-dump the message dict (the wire's
UTF-8 bytes are identified with the string). -/
def to_json (fields : List (String × Jval)) : String :=
  dumps (.object fields)

/-- `from_json` of `kafka_utils.py`: decode UTF-8 and `json.loads` it,
whatever the top-level value turns out to be. -/
def from_json (raw : String) : Option Jval :=
  loads raw

/-- An `ArticleSummaryEnvelope` as the producer builds it in
`build_message`. -/
structure ArticleSummaryEnvelope where
  id : String
  title : String
  link : String
  publish_date : String
  source : String
  category : String
  summary : String
  fetched_at : String
deriving Repr, DecidableEq

/-- The envelope's wire mapping, in `build_message` insertion order. -/
def envelopeFields (x : ArticleSummaryEnvelope) : List (String × Jval) :=
  [("id", .string x.id), ("title", .string x.title), ("link", .string x.link),
   ("publish_date", .string x.publish_date), ("source", .string x.source),
   ("category", .string x.category), ("summary", .string x.summary),
   ("fetched_at", .string x.fetched_at)]

mutual

/-- Values free of the numeric constructor (every envelope is). -/
def numFree : Jval → Bool
  | .null => true
  | .boolean _ => true
  | .number _ _ => false
  | .string _ => true
  | .array xs => numFreeItems xs
  | .object fs => numFreeFields fs

def numFreeItems : List Jval → Bool
  | [] => true
  | x :: xs => numFree x && numFreeItems xs

def numFreeFields : List (String × Jval) → Bool
  | [] => true
  | (_, v) :: fs => numFree v && numFreeFields fs

end

end Codec

/-! ## Theorems -/

namespace RssProducer

theorem foldl_produceOne (recs : List RecordSpec) (s : ProducerState) :
    recs.foldl (fun s r => produceOne r s) s =
      { produced := s.produced + recs.countP submitted
        messages_produced := s.messages_produced + recs.countP submitted
        produce_errors := s.produce_errors + recs.countP erred
        flushes := s.flushes + recs.countP hitBuffer
        retries := s.retries + recs.countP hitBuffer } := by
  induction recs generalizing s with
  | nil => simp [List.countP_nil]
  | cons r rest ih =>
      rw [List.foldl_cons, ih]
      cases s
      rcases r with ⟨first, retryOk⟩
      cases first <;> cases retryOk <;>
        simp [produceOne, submitted, erred, hitBuffer, List.countP_cons] <;> omega

end RssProducer

/-- C7: in `produce_batch`, every record that raises the buffer-full error
triggers exactly one synchronous flush and exactly one retry of that publish;
a retry that also fails is counted in `produce_errors` and iteration continues
with the next record, so no record's failure aborts the batch and the returned
submitted count reflects every other record.  Formally the run over any record
list yields: submitted count = records whose first attempt or post-flush retry
succeeded, produce errors = records that raised a non-buffer error or whose
retry failed, flushes = one per buffer-full record plus the single final batch
flush, retries = one per buffer-full record. -/
theorem C7_produce_batch_buffer_exhaustion (recs : List RssProducer.RecordSpec) :
    RssProducer.produce_batch recs =
      (recs.countP RssProducer.submitted,
        { produced := recs.countP RssProducer.submitted
          messages_produced := recs.countP RssProducer.submitted
          produce_errors := recs.countP RssProducer.erred
          flushes := recs.countP RssProducer.hitBuffer + 1
          retries := recs.countP RssProducer.hitBuffer }) := by
  simp [RssProducer.produce_batch, RssProducer.foldl_produceOne, RssProducer.initProducerState]

namespace Storage

variable {Status : Type} [DecidableEq Status]

theorem updContent_keeps (a : ArticleInput) (e : Row Status) :
    (updContent a e).full_content = e.full_content ∧
    (updContent a e).full_content_status = e.full_content_status ∧
    (updContent a e).link = e.link := by
  unfold updContent
  split <;> exact ⟨rfl, rfl, rfl⟩

theorem updTitle_keeps (a : ArticleInput) (e : Row Status) :
    (updTitle a e).full_content = e.full_content ∧
    (updTitle a e).full_content_status = e.full_content_status ∧
    (updTitle a e).link = e.link := by
  unfold updTitle
  split <;> exact ⟨rfl, rfl, rfl⟩

theorem updPublishDate_keeps (a : ArticleInput) (e : Row Status) :
    (updPublishDate a e).full_content = e.full_content ∧
    (updPublishDate a e).full_content_status = e.full_content_status ∧
    (updPublishDate a e).link = e.link := by
  unfold updPublishDate
  split <;> exact ⟨rfl, rfl, rfl⟩

theorem updSource_keeps (a : ArticleInput) (e : Row Status) :
    (updSource a e).full_content = e.full_content ∧
    (updSource a e).full_content_status = e.full_content_status ∧
    (updSource a e).link = e.link := by
  unfold updSource
  split <;> exact ⟨rfl, rfl, rfl⟩

theorem updCategory_keeps (a : ArticleInput) (e : Row Status) :
    (updCategory a e).full_content = e.full_content ∧
    (updCategory a e).full_content_status = e.full_content_status ∧
    (updCategory a e).link = e.link := by
  unfold updCategory
  split <;> exact ⟨rfl, rfl, rfl⟩

theorem updMeta_keeps (a : ArticleInput) (e : Row Status) :
    (updMeta a e).full_content = e.full_content ∧
    (updMeta a e).full_content_status = e.full_content_status ∧
    (updMeta a e).link = e.link := by
  unfold updMeta
  refine ⟨?_, ?_, ?_⟩
  · rw [(updCategory_keeps _ _).1, (updSource_keeps _ _).1, (updPublishDate_keeps _ _).1,
      (updTitle_keeps _ _).1, (updContent_keeps _ _).1]
  · rw [(updCategory_keeps _ _).2.1, (updSource_keeps _ _).2.1, (updPublishDate_keeps _ _).2.1,
      (updTitle_keeps _ _).2.1, (updContent_keeps _ _).2.1]
  · rw [(updCategory_keeps _ _).2.2, (updSource_keeps _ _).2.2, (updPublishDate_keeps _ _).2.2,
      (updTitle_keeps _ _).2.2, (updContent_keeps _ _).2.2]

theorem updFullContent_full_content (se : Option Status) (tag : Status)
    (a : ArticleInput) (e : Row Status) :
    (updFullContent se tag a e).full_content =
      if a.full_content ≠ "" ∧ e.full_content = "" then a.full_content
      else e.full_content := by
  by_cases h : a.full_content ≠ "" ∧ e.full_content = ""
  · simp only [updFullContent, if_pos h]
  · simp only [updFullContent, if_neg h]
    cases se with
    | none => rfl
    | some st =>
        dsimp only
        split <;> rfl

theorem updFullContent_link (se : Option Status) (tag : Status)
    (a : ArticleInput) (e : Row Status) :
    (updFullContent se tag a e).link = e.link := by
  unfold updFullContent
  split
  · rfl
  · cases se with
    | none => rfl
    | some st =>
        dsimp only
        split <;> rfl

theorem save_article_not_found (statusOf : String → Option Status) (tag : Status)
    (a : ArticleInput) (db : List (Row Status))
    (h : hasRequired a = true)
    (hfind : db.find? (fun r => r.link = a.link.getD "") = none) :
    save_article statusOf tag a db = (true, db ++ [insertRow statusOf tag a]) := by
  simp [save_article, h, hfind]

theorem save_article_found (statusOf : String → Option Status) (tag : Status)
    (a : ArticleInput) (db : List (Row Status)) (e : Row Status)
    (h : hasRequired a = true)
    (hfind : db.find? (fun r => r.link = a.link.getD "") = some e) :
    save_article statusOf tag a db =
      (false, updateRow (a.link.getD "")
        (updFullContent (statusEnumOf statusOf a) tag a (updMeta a e)) db) := by
  simp [save_article, h, hfind]

theorem updateRow_append_fresh (l : String) (e r1 : Row Status) (db : List (Row Status))
    (hdb : ∀ r ∈ db, ¬ r.link = l) (hr1 : r1.link = l) :
    updateRow l e (db ++ [r1]) = db ++ [e] := by
  unfold updateRow
  rw [List.map_append]
  congr 1
  · calc db.map (fun r => if r.link = l then e else r) = db.map id := by
          exact List.map_congr_left (fun r hr => by simp [hdb r hr])
      _ = db := List.map_id db
  · simp [hr1]

end Storage

/-- C10 (implicit): `save_article` validates its input atomically: an article
dict missing any of the required keys `title`, `link`, `publish_date`,
`source`, `category`, `content` makes it return `False` without raising and
without touching the stored table. -/
theorem C10_save_article_missing_key_atomic {Status : Type} [DecidableEq Status]
    (statusOf : String → Option Status) (successTag : Status)
    (a : Storage.ArticleInput) (db : List (Storage.Row Status))
    (h : a.title = none ∨ a.link = none ∨ a.publish_date = none ∨
      a.source = none ∨ a.category = none ∨ a.content = none) :
    Storage.save_article statusOf successTag a db = (false, db) := by
  have hreq : Storage.hasRequired a = false := by
    rcases h with h | h | h | h | h | h <;> simp [Storage.hasRequired, h]
  simp [Storage.save_article, hreq]

/-- Witness for C10: a concrete article dict missing its `title` key leaves a
concrete one-row table unchanged. -/
theorem C10_save_article_missing_key_atomic_witness :
    Storage.save_article (fun _ => (none : Option String)) "success"
      { title := none, link := some "http://x", publish_date := some "",
        source := some "S", category := some "tech", content := some "c",
        full_content := "", full_content_status := none }
      [{ title := "t0", link := "http://y", publish_date := "", source := "S",
         category := "tech", content := "c0", full_content := "F",
         full_content_status := none }] =
      (false,
        [{ title := "t0", link := "http://y", publish_date := "", source := "S",
           category := "tech", content := "c0", full_content := "F",
           full_content_status := none }]) :=
  C10_save_article_missing_key_atomic (fun _ => none) "success" _ _ (Or.inl rfl)

/-- C1: upserting two article records with the same link (into a table with no
row for that link yet) leaves the stored row's `full_content` equal to the
first record's when that one is non-empty and to the second record's
otherwise; a previously-set non-empty `full_content` is never cleared or
overwritten, and the stored value is non-empty whenever either input's was. -/
theorem C1_save_article_full_content_idempotent {Status : Type} [DecidableEq Status]
    (statusOf : String → Option Status) (successTag : Status)
    (a1 a2 : Storage.ArticleInput) (db : List (Storage.Row Status))
    (h1 : Storage.hasRequired a1 = true) (h2 : Storage.hasRequired a2 = true)
    (hl : a2.link = a1.link)
    (hfresh : db.find? (fun r => r.link = a1.link.getD "") = none) :
    ∃ row,
      ((Storage.save_article statusOf successTag a2
          (Storage.save_article statusOf successTag a1 db).2).2).find?
        (fun r => r.link = a1.link.getD "") = some row ∧
      row.full_content =
        (if a1.full_content = "" then a2.full_content else a1.full_content) ∧
      ((a1.full_content ≠ "" ∨ a2.full_content ≠ "") → row.full_content ≠ "") := by
  have hdb : ∀ r ∈ db, ¬ r.link = a1.link.getD "" := by
    intro r hr
    have := List.find?_eq_none.mp hfresh r hr
    simpa using this
  rw [Storage.save_article_not_found statusOf successTag a1 db h1 hfresh]
  set r1 := Storage.insertRow statusOf successTag a1 with hr1def
  have hr1link : r1.link = a1.link.getD "" := rfl
  have hfind2 : (db ++ [r1]).find? (fun r => r.link = a2.link.getD "") = some r1 := by
    rw [hl, List.find?_append, hfresh]
    simp [hr1link]
  rw [Storage.save_article_found statusOf successTag a2 (db ++ [r1]) r1 h2 hfind2]
  set e := Storage.updFullContent (Storage.statusEnumOf statusOf a2) successTag a2
    (Storage.updMeta a2 r1) with hedef
  have helink : e.link = a1.link.getD "" := by
    rw [hedef, Storage.updFullContent_link, (Storage.updMeta_keeps a2 r1).2.2, hr1link]
  have hupd : Storage.updateRow (a2.link.getD "") e (db ++ [r1]) = db ++ [e] := by
    rw [hl]
    exact Storage.updateRow_append_fresh _ e r1 db hdb hr1link
  rw [hupd]
  refine ⟨e, ?_, ?_, ?_⟩
  · rw [List.find?_append, hfresh]
    simp [helink]
  · rw [hedef, Storage.updFullContent_full_content, (Storage.updMeta_keeps a2 r1).1]
    have hr1fc : r1.full_content = a1.full_content := rfl
    rw [hr1fc]
    by_cases ha1 : a1.full_content = ""
    · by_cases ha2 : a2.full_content = "" <;> simp [ha1, ha2]
    · simp [ha1]
  · rw [hedef, Storage.updFullContent_full_content, (Storage.updMeta_keeps a2 r1).1]
    have hr1fc : r1.full_content = a1.full_content := rfl
    rw [hr1fc]
    rintro (ha | ha)
    · by_cases ha2 : a2.full_content = "" <;> simp [ha, ha2]
    · by_cases ha1 : a1.full_content = "" <;> simp [ha, ha1]

/-- Witness for C1: two concrete records with the same link, the first with an
empty `full_content` and the second with `"FULL"`; the stored row ends with
`full_content = "FULL"`, which is non-empty. -/
theorem C1_save_article_full_content_idempotent_witness :
    ∃ row,
      ((Storage.save_article (fun _ => (none : Option String)) "success"
          { title := some "t", link := some "http://x", publish_date := some "",
            source := some "S", category := some "tech", content := some "c",
            full_content := "FULL", full_content_status := none }
          (Storage.save_article (fun _ => (none : Option String)) "success"
            { title := some "t", link := some "http://x", publish_date := some "",
              source := some "S", category := some "tech", content := some "c",
              full_content := "", full_content_status := none }
            []).2).2).find?
        (fun r => r.link = (some "http://x" : Option String).getD "") = some row ∧
      row.full_content = (if ("" : String) = "" then "FULL" else "") ∧
      ((("" : String) ≠ "" ∨ ("FULL" : String) ≠ "") → row.full_content ≠ "") :=
  C1_save_article_full_content_idempotent (fun _ => none) "success"
    { title := some "t", link := some "http://x", publish_date := some "",
      source := some "S", category := some "tech", content := some "c",
      full_content := "", full_content_status := none }
    { title := some "t", link := some "http://x", publish_date := some "",
      source := some "S", category := some "tech", content := some "c",
      full_content := "FULL", full_content_status := none }
    [] (by decide) (by decide) rfl rfl

namespace SyncConsumer

theorem processMessage_processed (m : MsgSpec) (s : ConsumerState) :
    (processMessage m s).processed =
      if isSuccessEvent (.msg m) then s.processed + 1 else s.processed := by
  rcases m with ⟨d, sc, c, a⟩
  cases d with
  | none => simp [processMessage, failPath, isSuccessEvent]
  | some p =>
      cases sc with
      | none => simp [processMessage, failPath, isSuccessEvent]
      | some fc =>
          cases c <;> simp [processMessage, isSuccessEvent]

theorem run_consumer_oneShot_rem (N : Nat) (evts : List PollEvent) :
    ∀ s : ConsumerState, s.processed < N →
      (run_consumer false (some N) evts s).2 = remAfterNthSuccess (N - s.processed) evts := by
  induction evts with
  | nil =>
      intro s h
      simp [run_consumer, remAfterNthSuccess]
  | cons e rest ih =>
      intro s h
      cases e with
      | noMsg =>
          have hstop : stopNow false (some N) s = false := by
            simp only [stopNow, Bool.not_false, Bool.true_and, decide_eq_false_iff_not, Option.getD_some]
            omega
          rw [run_consumer, hstop]
          simp only [Bool.false_eq_true, if_false]
          rw [ih s h]
          simp [remAfterNthSuccess, isSuccessEvent]
      | brokerErr =>
          rw [run_consumer]
          rw [ih s h]
          simp [remAfterNthSuccess, isSuccessEvent]
      | msg m =>
          by_cases hsucc : isSuccessEvent (.msg m) = true
          · have hp : (processMessage m s).processed = s.processed + 1 := by
              rw [processMessage_processed, if_pos hsucc]
            by_cases hlast : s.processed + 1 = N
            · have hstop : stopNow false (some N) (processMessage m s) = true := by
                simp only [stopNow, Bool.not_false, Bool.true_and, decide_eq_true_eq, Option.getD_some, hp]
                omega
              rw [run_consumer, hstop]
              simp only [if_true]
              rw [remAfterNthSuccess, if_pos hsucc, if_pos (by omega : N - s.processed ≤ 1)]
            · have hstop : stopNow false (some N) (processMessage m s) = false := by
                simp only [stopNow, Bool.not_false, Bool.true_and, decide_eq_false_iff_not, Option.getD_some, hp]
                omega
              rw [run_consumer, hstop]
              simp only [Bool.false_eq_true, if_false]
              rw [ih (processMessage m s) (by omega)]
              rw [remAfterNthSuccess, if_pos hsucc, if_neg (by omega : ¬ N - s.processed ≤ 1), hp]
              congr 1
          · have hp : (processMessage m s).processed = s.processed := by
              rw [processMessage_processed, if_neg hsucc]
            have hstop : stopNow false (some N) (processMessage m s) = false := by
              simp only [stopNow, Bool.not_false, Bool.true_and, decide_eq_false_iff_not, Option.getD_some, hp]
              omega
            rw [run_consumer, hstop]
            simp only [Bool.false_eq_true, if_false]
            rw [ih (processMessage m s) (by omega)]
            rw [remAfterNthSuccess, if_neg (by simpa using hsucc), hp]

end SyncConsumer

/-- C2: for a polled message whose enrichment fails (the scrape collaborator
returns no content), the sync consumer does not commit the offset, increments
the processing-failures counter by exactly 1, makes exactly one alert publish
with type `"enrichment_failure"`, is unaffected by whether that alert publish
itself raises (the error is swallowed), and proceeds to the next poll. -/
theorem C2_sync_enrichment_failure (m : SyncConsumer.MsgSpec) (p : SyncConsumer.Payload)
    (s : SyncConsumer.ConsumerState)
    (hd : m.decoded = some p) (hs : m.scrape = none) :
    (SyncConsumer.processMessage m s).commits = s.commits ∧
    (SyncConsumer.processMessage m s).metrics.processing_failures =
      s.metrics.processing_failures + 1 ∧
    (SyncConsumer.processMessage m s).alerts =
      s.alerts ++ [{ type := "enrichment_failure", error := "Full content fetch failed" }] ∧
    (SyncConsumer.processMessage m s).metrics.processing_success =
      s.metrics.processing_success ∧
    (SyncConsumer.processMessage m s).cleaned = s.cleaned ∧
    (∀ b, SyncConsumer.processMessage { m with alertOk := b } s =
      SyncConsumer.processMessage m s) ∧
    (∀ rest, SyncConsumer.run_consumer true none (.msg m :: rest) s =
      SyncConsumer.run_consumer true none rest (SyncConsumer.processMessage m s)) := by
  rcases m with ⟨d, sc, c, a⟩
  cases hd
  cases hs
  refine ⟨rfl, rfl, rfl, rfl, rfl, fun b => rfl, fun rest => ?_⟩
  rw [SyncConsumer.run_consumer]
  have hstop : SyncConsumer.stopNow true none
      (SyncConsumer.processMessage ⟨some p, none, c, a⟩ s) = false := by
    simp [SyncConsumer.stopNow]
  rw [hstop]
  simp

/-- Witness for C2 at a concrete message, concrete payload and the initial
consumer state. -/
theorem C2_sync_enrichment_failure_witness :
    (SyncConsumer.processMessage SyncConsumer.sampleFailMsg
        SyncConsumer.initConsumerState).commits =
      SyncConsumer.initConsumerState.commits ∧
    (SyncConsumer.processMessage SyncConsumer.sampleFailMsg
        SyncConsumer.initConsumerState).metrics.processing_failures =
      SyncConsumer.initConsumerState.metrics.processing_failures + 1 :=
  let thm := C2_sync_enrichment_failure SyncConsumer.sampleFailMsg
    SyncConsumer.samplePayload SyncConsumer.initConsumerState rfl rfl
  ⟨thm.1, thm.2.1⟩

/-- C5: for a polled message whose decode and enrichment succeed, a raised
publish to the cleaned topic is counted in `produce_errors` but does not fail
the message: the success counter still increments, the offset is still
committed, and no failure is recorded. -/
theorem C5_sync_cleaned_publish_failure_nonfatal (m : SyncConsumer.MsgSpec)
    (p : SyncConsumer.Payload) (fc : String) (s : SyncConsumer.ConsumerState)
    (hd : m.decoded = some p) (hs : m.scrape = some fc) (hc : m.cleanedOk = false) :
    (SyncConsumer.processMessage m s).metrics.produce_errors =
      s.metrics.produce_errors + 1 ∧
    (SyncConsumer.processMessage m s).metrics.processing_success =
      s.metrics.processing_success + 1 ∧
    (SyncConsumer.processMessage m s).commits = s.commits + 1 ∧
    (SyncConsumer.processMessage m s).processed = s.processed + 1 ∧
    (SyncConsumer.processMessage m s).metrics.processing_failures =
      s.metrics.processing_failures := by
  rcases m with ⟨d, sc, c, a⟩
  cases hd
  cases hs
  cases hc
  exact ⟨rfl, rfl, rfl, rfl, rfl⟩

/-- Witness for C5 at a concrete message, concrete payload and the initial
consumer state. -/
theorem C5_sync_cleaned_publish_failure_nonfatal_witness :
    (SyncConsumer.processMessage SyncConsumer.samplePublishFailMsg
        SyncConsumer.initConsumerState).commits =
      SyncConsumer.initConsumerState.commits + 1 ∧
    (SyncConsumer.processMessage SyncConsumer.samplePublishFailMsg
        SyncConsumer.initConsumerState).metrics.produce_errors =
      SyncConsumer.initConsumerState.metrics.produce_errors + 1 :=
  let thm := C5_sync_cleaned_publish_failure_nonfatal
    SyncConsumer.samplePublishFailMsg SyncConsumer.samplePayload
    "FULL" SyncConsumer.initConsumerState rfl rfl rfl
  ⟨thm.2.2.1, thm.1⟩

/-- Counterexample to C6 as stated: with `max_messages = 1`, a stream whose
first message FAILS (scrape returns nothing) and whose second message succeeds
is consumed in full: the loop processes both messages (one failure, then one
success) and leaves nothing unconsumed, although one message (the failure) had
already reached a terminal state after the first poll.  The `processed`
counter of the source only counts SUCCESS outcomes, so FAILURE outcomes do not
count toward `max_messages`. -/
theorem C6_counterexample_failure_does_not_count :
    (SyncConsumer.run_consumer false (some 1)
        [.msg { SyncConsumer.sampleFailMsg with alertOk := true },
         .msg SyncConsumer.sampleSuccMsg]
        SyncConsumer.initConsumerState).2 = [] ∧
    (SyncConsumer.run_consumer false (some 1)
        [.msg { SyncConsumer.sampleFailMsg with alertOk := true },
         .msg SyncConsumer.sampleSuccMsg]
        SyncConsumer.initConsumerState).1.metrics.processing_failures = 1 ∧
    (SyncConsumer.run_consumer false (some 1)
        [.msg { SyncConsumer.sampleFailMsg with alertOk := true },
         .msg SyncConsumer.sampleSuccMsg]
        SyncConsumer.initConsumerState).1.metrics.processing_success = 1 := by
  refine ⟨?_, ?_, ?_⟩ <;> rfl

/-- C6 amended: in one-shot mode with `max_messages = N ≥ 1`, the loop
terminates as soon as N messages have reached SUCCESS; FAILURE outcomes do not
count toward N.  The poll results left unconsumed are exactly those after the
event carrying the N-th success (none when fewer than N successes occur). -/
theorem C6_one_shot_stops_at_nth_success (N : Nat) (evts : List SyncConsumer.PollEvent)
    (s : SyncConsumer.ConsumerState) (hN : 0 < N) (hs : s.processed = 0) :
    (SyncConsumer.run_consumer false (some N) evts s).2 =
      SyncConsumer.remAfterNthSuccess N evts := by
  have h := SyncConsumer.run_consumer_oneShot_rem N evts s (by omega)
  rwa [hs, Nat.sub_zero] at h

/-- Witness for the amended C6 at a concrete two-event stream. -/
theorem C6_one_shot_stops_at_nth_success_witness :
    (SyncConsumer.run_consumer false (some 1)
        [.msg SyncConsumer.sampleSuccMsg, .noMsg]
        SyncConsumer.initConsumerState).2 =
      SyncConsumer.remAfterNthSuccess 1 [.msg SyncConsumer.sampleSuccMsg, .noMsg] :=
  C6_one_shot_stops_at_nth_success 1 _ SyncConsumer.initConsumerState (by decide) rfl

namespace AsyncConsumer

theorem countP_set_add {α : Type} (p : α → Bool) (l : List α) :
    ∀ (j : Nat) (hj : j < l.length) (a : α),
      (l.set j a).countP p + (if p (l.get ⟨j, hj⟩) then 1 else 0) =
        l.countP p + (if p a then 1 else 0) := by
  induction l with
  | nil => intro j hj a; simp at hj
  | cons x xs ih =>
      intro j hj a
      cases j with
      | zero =>
          simp only [List.set_cons_zero, List.countP_cons, List.get]
          by_cases hx : p x = true <;> by_cases ha : p a = true <;> simp [hx, ha]
      | succ j =>
          simp only [List.set_cons_succ, List.countP_cons, List.get]
          have h := ih j (by simpa using hj) a
          simp only [List.get_eq_getElem] at h ⊢
          by_cases hx : p x = true <;> simp [hx] <;> omega

theorem donePresent_iff (k i : Nat) (tr : List Event) :
    donePresent k i tr = true ↔ ∃ ok, Event.unitDone k i ok ∈ tr := by
  simp only [donePresent, List.any_eq_true]
  constructor
  · rintro ⟨e, he, hp⟩
    match e with
    | .unitDone k2 i2 ok =>
        simp only [Bool.and_eq_true, beq_iff_eq] at hp
        exact ⟨ok, hp.1 ▸ hp.2 ▸ he⟩
    | .commit k2 => simp at hp
  · rintro ⟨ok, hok⟩
    exact ⟨.unitDone k i ok, hok, by simp⟩

theorem donePresent_append_commit (k i m : Nat) (tr : List Event) :
    donePresent k i (tr ++ [.commit m]) = donePresent k i tr := by
  simp [donePresent, List.any_append]

theorem donePresent_append_unitDone (k i k2 i2 : Nat) (ok : Bool) (tr : List Event) :
    donePresent k i (tr ++ [.unitDone k2 i2 ok]) =
      (donePresent k i tr || (k2 == k && i2 == i)) := by
  simp [donePresent, List.any_append]

theorem commitCount_append_commit (k m : Nat) (tr : List Event) :
    commitCount k (tr ++ [.commit m]) =
      commitCount k tr + (if m = k then 1 else 0) := by
  simp only [commitCount, List.countP_append, List.countP_cons, List.countP_nil]
  by_cases h : m = k <;> simp [h]

theorem commitCount_append_unitDone (k k2 i2 : Nat) (ok : Bool) (tr : List Event) :
    commitCount k (tr ++ [.unitDone k2 i2 ok]) = commitCount k tr := by
  simp [commitCount, List.countP_append, List.countP_cons]

theorem spawnFrom_length (b : List UnitSpec) : ∀ i, (spawnFrom i b).length = b.length := by
  induction b with
  | nil => intro i; rfl
  | cons u rest ih => intro i; simp [spawnFrom, ih]

theorem spawnFrom_get (b : List UnitSpec) :
    ∀ (i j : Nat) (h : j < (spawnFrom i b).length),
      ((spawnFrom i b).get ⟨j, h⟩).idx = i + j ∧
        ((spawnFrom i b).get ⟨j, h⟩).phase = .waiting := by
  induction b with
  | nil => intro i j h; simp [spawnFrom] at h
  | cons u rest ih =>
      intro i j h
      cases j with
      | zero => exact ⟨rfl, rfl⟩
      | succ j =>
          have h2 : j < (spawnFrom (i + 1) rest).length := by
            simpa [spawnFrom] using h
          have := ih (i + 1) j h2
          simpa [spawnFrom, List.get, Nat.add_assoc, Nat.add_comm 1 j] using this

theorem runningCount_spawnFrom (b : List UnitSpec) :
    ∀ i, (spawnFrom i b).countP (fun t => isRunning t.phase) = 0 := by
  induction b with
  | nil => intro i; rfl
  | cons u rest ih =>
      intro i
      rw [spawnFrom, List.countP_cons, ih (i + 1)]
      simp [isRunning]

theorem runningCount_all_finished (ts : List Task)
    (h : ts.all (fun t => t.phase = .finished) = true) :
    ts.countP (fun t => isRunning t.phase) = 0 := by
  induction ts with
  | nil => rfl
  | cons t rest ih =>
      simp only [List.all_cons, Bool.and_eq_true, decide_eq_true_eq] at h
      rw [List.countP_cons, ih h.2, h.1]
      simp [isRunning]

theorem getD_drop_cons {α : Type} (d : α) :
    ∀ (B : List α) (k : Nat) (b : α) (rest : List α),
      B.drop k = b :: rest → B.getD k d = b ∧ B.drop (k + 1) = rest := by
  intro B
  induction B with
  | nil => intro k b rest h; simp at h
  | cons x xs ih =>
      intro k b rest h
      cases k with
      | zero =>
          simp only [List.drop_zero] at h
          cases h
          exact ⟨rfl, by simp⟩
      | succ k =>
          simp only [List.drop_succ_cons] at h
          have := ih k b rest h
          simpa [List.getD] using this

end AsyncConsumer

namespace AsyncConsumer

theorem Inv_commit {N : Nat} {B : List (List UnitSpec)} {c : Config} (hI : Inv N B c)
    (hm : c.main = .gathering)
    (hall : c.tasks.all (fun t => t.phase = .finished) = true) :
    Inv N B { c with
      trace := c.trace ++ [.commit c.cur]
      tasks := []
      cur := c.cur + 1
      main := .polling } := by
  obtain ⟨hpend, hne⟩ := hI.pending_gathering hm
  have hlen := hI.tasks_len hm
  have hrun0 : runningCount c = 0 := runningCount_all_finished _ hall
  refine ⟨hI.bound_eq, ?_, ?_, ?_, ?_, ?_, ?_, ?_, ?_, ?_, ?_, ?_, ?_⟩
  · show c.sem + List.countP _ [] = N
    have := hI.sem_total
    rw [hrun0] at this
    simpa using this
  · intro _
    rfl
  · intro h
    exact absurd h (by simp)
  · intro _
    exact hpend
  · intro h
    exact absurd h (by simp)
  · intro h
    exact absurd h (by simp)
  · intro h
    exact absurd h (by simp)
  · intro h
    exact absurd h (by simp)
  · intro k hk hkne
    have hk2 : k < c.cur + 1 := hk
    by_cases hkc : k = c.cur
    · subst hkc
      constructor
      · rw [commitCount_append_commit, hI.future_uncommitted c.cur (Nat.le_refl c.cur),
          if_pos rfl]
      · intro i hi
        rw [donePresent_append_commit]
        have hi2 : i < c.tasks.length := by omega
        have hfin : (c.tasks.get ⟨i, hi2⟩).phase = .finished := by
          have hmem : c.tasks.get ⟨i, hi2⟩ ∈ c.tasks := List.get_mem _ _ _
          have := (List.all_eq_true.mp hall) _ hmem
          simpa using this
        exact ((hI.done_iff hm i hi2).mp hfin)
    · have hklt : k < c.cur := by omega
      obtain ⟨h1, h2⟩ := hI.past_nonempty k hklt hkne
      constructor
      · rw [commitCount_append_commit, h1, if_neg (by omega)]
      · intro i hi
        rw [donePresent_append_commit]
        exact h2 i hi
  · intro k hk hke
    have hk2 : k < c.cur + 1 := hk
    by_cases hkc : k = c.cur
    · exact absurd (hkc ▸ hke) hne
    · have hklt : k < c.cur := by omega
      rw [commitCount_append_commit, hI.past_empty k hklt hke, if_neg (by omega)]
  · intro k hk
    have hk2 : c.cur + 1 ≤ k := hk
    rw [commitCount_append_commit, hI.future_uncommitted k (by omega), if_neg (by omega)]
  · intro k i b hmem
    rcases List.mem_append.mp hmem with hold | hnew
    · rcases hI.done_scope k i b hold with h | h
      · exact Or.inl (show k < c.cur + 1 by omega)
      · exact Or.inl (show k < c.cur + 1 by omega)
    · simp at hnew

theorem Inv_stop {N : Nat} {B : List (List UnitSpec)} {c : Config} (hI : Inv N B c)
    (hm : c.main = .polling) (hp : c.pending = []) :
    Inv N B { c with main := .stopped } := by
  have htasks := hI.polling_tasks hm
  have hdrop : B.drop c.cur = [] := by
    rw [← hI.pending_polling hm]
    exact hp
  refine ⟨hI.bound_eq, hI.sem_total, ?_, ?_, ?_, ?_, ?_, ?_, ?_,
    hI.past_nonempty, hI.past_empty, hI.future_uncommitted, ?_⟩
  · intro h
    exact absurd h (by simp)
  · intro _
    exact ⟨htasks, List.drop_eq_nil_iff.mp hdrop, hp⟩
  · intro h
    exact absurd h (by simp)
  · intro h
    exact absurd h (by simp)
  · intro h
    exact absurd h (by simp)
  · intro h
    exact absurd h (by simp)
  · intro h
    exact absurd h (by simp)
  · intro k i b hmem
    rcases hI.done_scope k i b hmem with h | h
    · exact Or.inl h
    · rw [hm] at h
      exact absurd h.1 (by simp)

theorem Inv_skip {N : Nat} {B : List (List UnitSpec)} {c : Config} {rest : List (List UnitSpec)}
    (hI : Inv N B c) (hm : c.main = .polling) (hp : c.pending = [] :: rest) :
    Inv N B { c with pending := rest, cur := c.cur + 1 } := by
  have htasks := hI.polling_tasks hm
  have hdrop : B.drop c.cur = [] :: rest := by
    rw [← hI.pending_polling hm]
    exact hp
  obtain ⟨hgetD, hdrop2⟩ := getD_drop_cons [] B c.cur [] rest hdrop
  refine ⟨hI.bound_eq, hI.sem_total, ?_, ?_, ?_, ?_, ?_, ?_, ?_, ?_, ?_, ?_, ?_⟩
  · intro _
    exact htasks
  · intro h
    exact absurd h (by simp [hm])
  · intro _
    exact hdrop2.symm
  · intro h
    exact absurd h (by simp [hm])
  · intro h
    exact absurd h (by simp [hm])
  · intro h
    exact absurd h (by simp [hm])
  · intro h
    exact absurd h (by simp [hm])
  · intro k hk hkne
    have hk2 : k < c.cur + 1 := hk
    by_cases hkc : k = c.cur
    · exact absurd (hkc ▸ hgetD) (by exact fun h => hkne (hkc ▸ h))
    · exact hI.past_nonempty k (by omega) hkne
  · intro k hk hke
    have hk2 : k < c.cur + 1 := hk
    by_cases hkc : k = c.cur
    · exact hkc ▸ hI.future_uncommitted c.cur (Nat.le_refl _)
    · exact hI.past_empty k (by omega) hke
  · intro k hk
    have hk2 : c.cur + 1 ≤ k := hk
    exact hI.future_uncommitted k (by omega)
  · intro k i b hmem
    rcases hI.done_scope k i b hmem with h | h
    · exact Or.inl (show k < c.cur + 1 by omega)
    · rw [hm] at h
      exact absurd h.1 (by simp)

theorem Inv_spawn {N : Nat} {B : List (List UnitSpec)} {c : Config}
    {b : List UnitSpec} {rest : List (List UnitSpec)}
    (hI : Inv N B c) (hm : c.main = .polling) (hp : c.pending = b :: rest)
    (hb : b ≠ []) :
    Inv N B { c with pending := rest, main := .gathering, tasks := spawnFrom 0 b } := by
  have htasks := hI.polling_tasks hm
  have hdrop : B.drop c.cur = b :: rest := by
    rw [← hI.pending_polling hm]
    exact hp
  obtain ⟨hgetD, hdrop2⟩ := getD_drop_cons [] B c.cur b rest hdrop
  have hsem : c.sem = N := by
    have := hI.sem_total
    rw [runningCount, htasks] at this
    simpa using this
  refine ⟨hI.bound_eq, ?_, ?_, ?_, ?_, ?_, ?_, ?_, ?_, ?_, ?_, ?_, ?_⟩
  · show c.sem + (spawnFrom 0 b).countP _ = N
    rw [runningCount_spawnFrom b 0, hsem]
    omega
  · intro h
    exact absurd h (by simp)
  · intro h
    exact absurd h (by simp)
  · intro h
    exact absurd h (by simp)
  · intro _
    exact ⟨hdrop2.symm, hgetD ▸ hb⟩
  · intro _
    rw [spawnFrom_length, hgetD]
  · intro _ j hj
    have := (spawnFrom_get b 0 j hj).1
    simpa using this
  · intro _ j hj
    have hwait := (spawnFrom_get b 0 j hj).2
    rw [hwait]
    constructor
    · intro h
      exact absurd h (by simp)
    · intro h
      obtain ⟨ok, hok⟩ := (donePresent_iff _ _ _).mp h
      have hok2 : Event.unitDone c.cur j ok ∈ c.trace := hok
      rcases hI.done_scope _ _ _ hok2 with h2 | h2
      · omega
      · rw [hm] at h2
        exact absurd h2.1 (by simp)
  · exact hI.past_nonempty
  · exact hI.past_empty
  · exact hI.future_uncommitted
  · intro k i b2 hmem
    rcases hI.done_scope k i b2 hmem with h | h
    · exact Or.inl h
    · rw [hm] at h
      exact absurd h.1 (by simp)

end AsyncConsumer

namespace AsyncConsumer

theorem main_gathering_of_task {N : Nat} {B : List (List UnitSpec)} {c : Config}
    {j : Nat} {t : Task} (hI : Inv N B c) (ht : c.tasks.get? j = some t) :
    c.main = .gathering := by
  cases hm : c.main with
  | polling =>
      rw [hI.polling_tasks hm] at ht
      simp at ht
  | gathering => rfl
  | stopped =>
      rw [(hI.stopped_shape hm).1] at ht
      simp at ht

theorem Inv_acquire {N : Nat} {B : List (List UnitSpec)} {c : Config} {j : Nat} {t : Task}
    (hI : Inv N B c) (ht : c.tasks.get? j = some t) (hw : t.phase = .waiting)
    (hs : 0 < c.sem) :
    Inv N B { c with
      sem := c.sem - 1
      tasks := c.tasks.set j { t with phase := .running t.spec.steps } } := by
  have hm := main_gathering_of_task hI ht
  obtain ⟨hj, ht2⟩ := List.get?_eq_some.mp ht
  have ht3 : c.tasks[j] = t := (List.get_eq_getElem c.tasks ⟨j, hj⟩).symm.trans ht2
  refine ⟨hI.bound_eq, ?_, ?_, ?_, hI.pending_polling, hI.pending_gathering, ?_, ?_, ?_,
    hI.past_nonempty, hI.past_empty, hI.future_uncommitted, hI.done_scope⟩
  · have key := countP_set_add (fun t => isRunning t.phase) c.tasks j hj
      { t with phase := .running t.spec.steps }
    rw [ht2, hw] at key
    have e1 : isRunning Phase.waiting = false := rfl
    have e2 : isRunning (Phase.running t.spec.steps) = true := rfl
    rw [e1, e2] at key
    simp at key
    have htot := hI.sem_total
    simp only [runningCount] at htot
    show c.sem - 1 +
      (c.tasks.set j { t with phase := .running t.spec.steps }).countP
        (fun t => isRunning t.phase) = N
    omega
  · intro h
    rw [hm] at h
    simp at h
  · intro h
    rw [hm] at h
    simp at h
  · intro _
    rw [List.length_set]
    exact hI.tasks_len hm
  · intro _ j2 hj2
    simp only [List.get_eq_getElem] at hj2 ⊢
    have hj2b : j2 < c.tasks.length := by simpa using hj2
    by_cases hjj : j2 = j
    · subst hjj
      rw [List.getElem_set_self]
      have hidx := hI.tasks_idx hm j2 hj2b
      rw [List.get_eq_getElem, ht3] at hidx
      exact hidx
    · rw [List.getElem_set_ne (fun h => hjj h.symm)]
      have hidx := hI.tasks_idx hm j2 hj2b
      simpa [List.get_eq_getElem] using hidx
  · intro _ j2 hj2
    simp only [List.get_eq_getElem] at hj2 ⊢
    have hj2b : j2 < c.tasks.length := by simpa using hj2
    by_cases hjj : j2 = j
    · subst hjj
      rw [List.getElem_set_self]
      constructor
      · intro h
        simp at h
      · intro h
        have hold := hI.done_iff hm j2 hj2b
        rw [ht2, hw] at hold
        have hbad : Phase.waiting = Phase.finished := hold.mpr h
        simp at hbad
    · rw [List.getElem_set_ne (fun h => hjj h.symm)]
      have hold := hI.done_iff hm j2 hj2b
      rw [List.get_eq_getElem] at hold
      exact hold

theorem Inv_work {N : Nat} {B : List (List UnitSpec)} {c : Config} {j : Nat} {t : Task}
    {left : Nat} (hI : Inv N B c) (ht : c.tasks.get? j = some t)
    (hr : t.phase = .running (left + 1)) :
    Inv N B { c with tasks := c.tasks.set j { t with phase := .running left } } := by
  have hm := main_gathering_of_task hI ht
  obtain ⟨hj, ht2⟩ := List.get?_eq_some.mp ht
  have ht3 : c.tasks[j] = t := (List.get_eq_getElem c.tasks ⟨j, hj⟩).symm.trans ht2
  refine ⟨hI.bound_eq, ?_, ?_, ?_, hI.pending_polling, hI.pending_gathering, ?_, ?_, ?_,
    hI.past_nonempty, hI.past_empty, hI.future_uncommitted, hI.done_scope⟩
  · have key := countP_set_add (fun t => isRunning t.phase) c.tasks j hj
      { t with phase := .running left }
    rw [ht2, hr] at key
    have e1 : isRunning (Phase.running (left + 1)) = true := rfl
    have e2 : isRunning (Phase.running left) = true := rfl
    rw [e1, e2] at key
    simp at key
    have htot := hI.sem_total
    simp only [runningCount] at htot
    show c.sem +
      (c.tasks.set j { t with phase := .running left }).countP
        (fun t => isRunning t.phase) = N
    omega
  · intro h
    rw [hm] at h
    simp at h
  · intro h
    rw [hm] at h
    simp at h
  · intro _
    rw [List.length_set]
    exact hI.tasks_len hm
  · intro _ j2 hj2
    simp only [List.get_eq_getElem] at hj2 ⊢
    have hj2b : j2 < c.tasks.length := by simpa using hj2
    by_cases hjj : j2 = j
    · subst hjj
      rw [List.getElem_set_self]
      have hidx := hI.tasks_idx hm j2 hj2b
      rw [List.get_eq_getElem, ht3] at hidx
      exact hidx
    · rw [List.getElem_set_ne (fun h => hjj h.symm)]
      have hidx := hI.tasks_idx hm j2 hj2b
      simpa [List.get_eq_getElem] using hidx
  · intro _ j2 hj2
    simp only [List.get_eq_getElem] at hj2 ⊢
    have hj2b : j2 < c.tasks.length := by simpa using hj2
    by_cases hjj : j2 = j
    · subst hjj
      rw [List.getElem_set_self]
      constructor
      · intro h
        simp at h
      · intro h
        have hold := hI.done_iff hm j2 hj2b
        rw [ht2, hr] at hold
        have hbad : Phase.running (left + 1) = Phase.finished := hold.mpr h
        simp at hbad
    · rw [List.getElem_set_ne (fun h => hjj h.symm)]
      have hold := hI.done_iff hm j2 hj2b
      rw [List.get_eq_getElem] at hold
      exact hold

theorem Inv_finish {N : Nat} {B : List (List UnitSpec)} {c : Config} {j : Nat} {t : Task}
    (hI : Inv N B c) (ht : c.tasks.get? j = some t) (hr : t.phase = .running 0) :
    Inv N B { c with
      sem := c.sem + 1
      tasks := c.tasks.set j { t with phase := .finished }
      trace := c.trace ++ [.unitDone c.cur t.idx t.spec.ok] } := by
  have hm := main_gathering_of_task hI ht
  obtain ⟨hj, ht2⟩ := List.get?_eq_some.mp ht
  have ht3 : c.tasks[j] = t := (List.get_eq_getElem c.tasks ⟨j, hj⟩).symm.trans ht2
  have hidxj : t.idx = j := by
    have hidx := hI.tasks_idx hm j hj
    rw [ht2] at hidx
    exact hidx
  refine ⟨hI.bound_eq, ?_, ?_, ?_, hI.pending_polling, hI.pending_gathering, ?_, ?_, ?_,
    ?_, ?_, ?_, ?_⟩
  · have key := countP_set_add (fun t => isRunning t.phase) c.tasks j hj
      { t with phase := .finished }
    rw [ht2, hr] at key
    have e1 : isRunning (Phase.running 0) = true := rfl
    have e2 : isRunning Phase.finished = false := rfl
    rw [e1, e2] at key
    simp at key
    have htot := hI.sem_total
    simp only [runningCount] at htot
    show c.sem + 1 +
      (c.tasks.set j { t with phase := .finished }).countP
        (fun t => isRunning t.phase) = N
    omega
  · intro h
    rw [hm] at h
    simp at h
  · intro h
    rw [hm] at h
    simp at h
  · intro _
    rw [List.length_set]
    exact hI.tasks_len hm
  · intro _ j2 hj2
    simp only [List.get_eq_getElem] at hj2 ⊢
    have hj2b : j2 < c.tasks.length := by simpa using hj2
    by_cases hjj : j2 = j
    · subst hjj
      rw [List.getElem_set_self]
      have hidx := hI.tasks_idx hm j2 hj2b
      rw [List.get_eq_getElem, ht3] at hidx
      exact hidx
    · rw [List.getElem_set_ne (fun h => hjj h.symm)]
      have hidx := hI.tasks_idx hm j2 hj2b
      simpa [List.get_eq_getElem] using hidx
  · intro _ j2 hj2
    simp only [List.get_eq_getElem] at hj2 ⊢
    have hj2b : j2 < c.tasks.length := by simpa using hj2
    rw [donePresent_append_unitDone]
    by_cases hjj : j2 = j
    · subst hjj
      rw [List.getElem_set_self]
      simp [hidxj]
    · rw [List.getElem_set_ne (fun h => hjj h.symm)]
      have hold := hI.done_iff hm j2 hj2b
      rw [List.get_eq_getElem] at hold
      rw [hold, hidxj]
      simp [Ne.symm hjj]
  · intro k hk hkne
    obtain ⟨h1, h2⟩ := hI.past_nonempty k hk hkne
    constructor
    · rw [commitCount_append_unitDone]
      exact h1
    · intro i hi
      rw [donePresent_append_unitDone]
      rw [h2 i hi]
      simp
  · intro k hk hke
    rw [commitCount_append_unitDone]
    exact hI.past_empty k hk hke
  · intro k hk
    rw [commitCount_append_unitDone]
    exact hI.future_uncommitted k hk
  · intro k i b hmem
    rcases List.mem_append.mp hmem with hold | hnew
    · exact hI.done_scope k i b hold
    · simp at hnew
      exact Or.inr ⟨hm, hnew.1⟩

end AsyncConsumer

namespace AsyncConsumer

theorem Inv_step {N : Nat} {B : List (List UnitSpec)} {c c2 : Config} {ch : Choice}
    (hI : Inv N B c) (h : step c ch = some c2) : Inv N B c2 := by
  cases ch with
  | mainStep =>
      simp only [step] at h
      cases hm : c.main with
      | stopped =>
          simp only [hm] at h
          simp at h
      | gathering =>
          simp only [hm] at h
          by_cases hall : c.tasks.all (fun t => t.phase = .finished) = true
          · rw [if_pos hall] at h
            simp only [Option.some.injEq] at h
            subst h
            exact Inv_commit hI hm hall
          · rw [if_neg hall] at h
            simp at h
      | polling =>
          simp only [hm] at h
          cases hp : c.pending with
          | nil =>
              simp only [hp, Option.some.injEq] at h
              subst h
              have hres := Inv_stop hI hm hp
              rw [hp] at hres
              exact hres
          | cons b rest =>
              simp only [hp] at h
              by_cases hb : b.isEmpty = true
              · rw [if_pos hb] at h
                simp only [Option.some.injEq] at h
                subst h
                have hbnil : b = [] := List.isEmpty_iff.mp hb
                subst hbnil
                have hres := Inv_skip hI hm hp
                rw [hm] at hres
                exact hres
              · rw [if_neg hb] at h
                simp only [Option.some.injEq] at h
                subst h
                have hbne : b ≠ [] := by
                  intro hcon
                  subst hcon
                  exact hb rfl
                exact Inv_spawn hI hm hp hbne
  | taskStep j =>
      simp only [step] at h
      cases ht : c.tasks.get? j with
      | none =>
          simp only [ht] at h
          simp at h
      | some t =>
          simp only [ht] at h
          cases hph : t.phase with
          | waiting =>
              simp only [hph] at h
              by_cases hs : 0 < c.sem
              · rw [if_pos hs] at h
                simp only [Option.some.injEq] at h
                subst h
                exact Inv_acquire hI ht hph hs
              · rw [if_neg hs] at h
                simp at h
          | running left =>
              cases left with
              | zero =>
                  simp only [hph, Option.some.injEq] at h
                  subst h
                  exact Inv_finish hI ht hph
              | succ left2 =>
                  simp only [hph, Option.some.injEq] at h
                  subst h
                  exact Inv_work hI ht hph
          | finished =>
              simp only [hph] at h
              simp at h

theorem Inv_run {N : Nat} {B : List (List UnitSpec)} (choices : List Choice) :
    ∀ c : Config, Inv N B c → Inv N B (run c choices) := by
  induction choices with
  | nil =>
      intro c hI
      exact hI
  | cons ch rest ih =>
      intro c hI
      rw [run]
      cases hstep : step c ch with
      | none => exact ih c hI
      | some c2 => exact ih c2 (Inv_step hI hstep)

theorem Inv_init (N : Nat) (B : List (List UnitSpec)) : Inv N B (initConfig N B) := by
  refine ⟨rfl, ?_, ?_, ?_, ?_, ?_, ?_, ?_, ?_, ?_, ?_, ?_, ?_⟩
  · show N + List.countP _ [] = N
    simp
  · intro _
    rfl
  · intro h
    exact absurd h (by simp [initConfig])
  · intro _
    simp [initConfig]
  · intro h
    exact absurd h (by simp [initConfig])
  · intro h
    exact absurd h (by simp [initConfig])
  · intro h
    exact absurd h (by simp [initConfig])
  · intro h
    exact absurd h (by simp [initConfig])
  · intro k hk
    exact absurd hk (by simp [initConfig])
  · intro k hk
    exact absurd hk (by simp [initConfig])
  · intro k _
    rfl
  · intro k i b hmem
    exact absurd hmem (by simp [initConfig])

end AsyncConsumer

/-- C9: the semaphore of size N is a hard ceiling on concurrent enrichments in
the async consumer.  For every concurrency bound N, every list of polled
batches (of any size, in particular larger than N), and every cooperative
interleaving of the spawned units, the number of units simultaneously holding
a semaphore permit (enrichment fetches in flight) never exceeds N. -/
theorem C9_async_semaphore_hard_ceiling (N : Nat)
    (batches : List (List AsyncConsumer.UnitSpec))
    (choices : List AsyncConsumer.Choice) :
    AsyncConsumer.runningCount
      (AsyncConsumer.run (AsyncConsumer.initConfig N batches) choices) ≤ N := by
  have hI := AsyncConsumer.Inv_run choices _ (AsyncConsumer.Inv_init N batches)
  have h := hI.sem_total
  omega

/-- C3: async batch offset commit discipline.  In every interleaved execution
of the async consumer over any batch list: (1) each batch's offsets are
committed at most once; (2) whenever a batch's commit is in the trace, the
terminal-state event of every unit of that batch (SUCCESS and FAILURE alike)
is also in the trace — since this holds for every schedule, hence for every
prefix of a run, the commit can only happen after all units of its batch have
run to completion; (3) a run in which the main coroutine consumed all input
has committed every non-empty batch exactly once, covering the whole batch
including units that failed. -/
theorem C3_async_commit_once_after_whole_batch (N : Nat)
    (batches : List (List AsyncConsumer.UnitSpec))
    (choices : List AsyncConsumer.Choice) :
    (∀ k, AsyncConsumer.commitCount k
        (AsyncConsumer.run (AsyncConsumer.initConfig N batches) choices).trace ≤ 1) ∧
    (∀ k i, AsyncConsumer.Event.commit k ∈
        (AsyncConsumer.run (AsyncConsumer.initConfig N batches) choices).trace →
      i < (batches.getD k []).length →
      AsyncConsumer.donePresent k i
        (AsyncConsumer.run (AsyncConsumer.initConfig N batches) choices).trace = true) ∧
    ((AsyncConsumer.run (AsyncConsumer.initConfig N batches) choices).main =
        AsyncConsumer.MainPhase.stopped →
      ∀ k, k < batches.length → batches.getD k [] ≠ [] →
        AsyncConsumer.commitCount k
          (AsyncConsumer.run (AsyncConsumer.initConfig N batches) choices).trace = 1) := by
  have hI := AsyncConsumer.Inv_run choices _ (AsyncConsumer.Inv_init N batches)
  set c := AsyncConsumer.run (AsyncConsumer.initConfig N batches) choices with hc
  refine ⟨?_, ?_, ?_⟩
  · intro k
    by_cases hk : k < c.cur
    · by_cases hne : batches.getD k [] = []
      · rw [hI.past_empty k hk hne]
        omega
      · rw [(hI.past_nonempty k hk hne).1]
    · rw [hI.future_uncommitted k (by omega)]
      omega
  · intro k i hmem hi
    have hpos : 0 < AsyncConsumer.commitCount k c.trace := by
      rw [AsyncConsumer.commitCount]
      rw [List.countP_pos_iff]
      exact ⟨.commit k, hmem, by simp⟩
    have hk : k < c.cur := by
      by_contra hk
      rw [hI.future_uncommitted k (by omega)] at hpos
      omega
    have hne : batches.getD k [] ≠ [] := by
      intro hne
      rw [hI.past_empty k hk hne] at hpos
      omega
    exact (hI.past_nonempty k hk hne).2 i hi
  · intro hstop k hk hne
    have hcur := (hI.stopped_shape hstop).2.1
    exact (hI.past_nonempty k (by omega) hne).1

/-- Witness for C3: one batch of two units (one fails, one succeeds) with
concurrency bound 1, run to completion under an explicit schedule; the batch
is committed exactly once. -/
theorem C3_async_commit_once_after_whole_batch_witness :
    AsyncConsumer.commitCount 0
      (AsyncConsumer.run
        (AsyncConsumer.initConfig 1 [[{ steps := 1, ok := false }, { steps := 0, ok := true }]])
        [.mainStep, .taskStep 0, .taskStep 0, .taskStep 0,
         .taskStep 1, .taskStep 1, .mainStep, .mainStep]).trace = 1 :=
  (C3_async_commit_once_after_whole_batch 1
      [[{ steps := 1, ok := false }, { steps := 0, ok := true }]]
      [.mainStep, .taskStep 0, .taskStep 0, .taskStep 0,
       .taskStep 1, .taskStep 1, .mainStep, .mainStep]).2.2
    (by decide) 0 (by decide) (by decide)

namespace Codec

theorem hexVal_hexDig : ∀ n : Nat, n < 16 → hexVal (hexDig n) = some n := by
  decide

theorem hexVal_zero : hexVal '0' = some 0 := by
  decide

theorem parseStrBody_escChar (c : Char) (acc rest : List Char) :
    parseStrBody acc (escChar c ++ rest) = parseStrBody (c :: acc) rest := by
  by_cases h1 : c = '"'
  · subst h1
    rfl
  by_cases h2 : c = '\\'
  · subst h2
    rfl
  by_cases h3 : c = '\n'
  · subst h3
    rfl
  by_cases h4 : c = '\r'
  · subst h4
    rfl
  by_cases h5 : c = '\t'
  · subst h5
    rfl
  by_cases h6 : c = Char.ofNat 8
  · subst h6
    rfl
  by_cases h7 : c = Char.ofNat 12
  · subst h7
    rfl
  by_cases h8 : c.toNat < 32
  · have hesc : escChar c =
        ['\\', 'u', '0', '0', hexDig (c.toNat / 16), hexDig (c.toNat % 16)] := by
      simp [escChar, h1, h2, h3, h4, h5, h6, h7, h8]
    rw [hesc]
    have hhi := hexVal_hexDig (c.toNat / 16) (by omega)
    have hlo := hexVal_hexDig (c.toNat % 16) (by omega)
    show parseStrBody acc
        ('\\' :: 'u' :: '0' :: '0' :: hexDig (c.toNat / 16) :: hexDig (c.toNat % 16) :: rest) =
      parseStrBody (c :: acc) rest
    rw [parseStrBody]
    rw [hexVal_zero, hhi, hlo]
    show parseStrBody
        (Char.ofNat (((0 * 16 + 0) * 16 + c.toNat / 16) * 16 + c.toNat % 16) :: acc) rest =
      parseStrBody (c :: acc) rest
    have harith : ((0 * 16 + 0) * 16 + c.toNat / 16) * 16 + c.toNat % 16 = c.toNat := by
      omega
    rw [harith, Char.ofNat_toNat]
  · have hesc : escChar c = [c] := by
      simp [escChar, h1, h2, h3, h4, h5, h6, h7, h8]
    rw [hesc]
    show parseStrBody acc (c :: rest) = parseStrBody (c :: acc) rest
    rw [parseStrBody.eq_def]
    simp [h1, h2, h8]

theorem parseStrBody_flatMap (cs : List Char) :
    ∀ (acc rest : List Char),
      parseStrBody acc (cs.flatMap escChar ++ '"' :: rest) =
        some (⟨acc.reverse ++ cs⟩, rest) := by
  induction cs with
  | nil =>
      intro acc rest
      simp [parseStrBody]
  | cons c cs ih =>
      intro acc rest
      rw [List.flatMap_cons, List.append_assoc, parseStrBody_escChar, ih]
      simp

theorem parseStrBody_encStr (s : String) (rest : List Char) :
    parseStrBody [] (s.data.flatMap escChar ++ '"' :: rest) = some (s, rest) := by
  rw [parseStrBody_flatMap]
  simp

theorem skipWS_not (c : Char) (t : List Char) (h : isWS c = false) :
    skipWS (c :: t) = c :: t := by
  simp [skipWS, h]

theorem renderJ_head (j : Jval) (hnf : numFree j = true) :
    ∃ c t, renderJ j = c :: t ∧ isWS c = false ∧ c ≠ ']' ∧ c ≠ ',' := by
  cases j with
  | number m e => exact absurd hnf (by simp [numFree])
  | null =>
      refine ⟨'n', _, rfl, ?_, ?_, ?_⟩ <;> decide
  | boolean b =>
      cases b with
      | false => refine ⟨'f', _, rfl, ?_, ?_, ?_⟩ <;> decide
      | true => refine ⟨'t', _, rfl, ?_, ?_, ?_⟩ <;> decide
  | string s =>
      refine ⟨'"', _, rfl, ?_, ?_, ?_⟩ <;> decide
  | array xs =>
      refine ⟨'[', _, rfl, ?_, ?_, ?_⟩ <;> decide
  | object fs =>
      refine ⟨'{', renderFields fs ++ ['}'], rfl, ?_, ?_, ?_⟩ <;> decide

end Codec

namespace Codec

theorem pVal_array_cons (f : Nat) (c0 : Char) (t1 : List Char)
    (hws : isWS c0 = false) (hne : c0 ≠ ']') :
    pVal (f + 1) ('[' :: (c0 :: t1)) =
      (match pItems f (c0 :: t1) with
       | some (xs, r3) => some (Jval.array xs, r3)
       | none => none) := by
  show (match skipWS (c0 :: t1) with
        | [] => none
        | c :: r2 =>
            if c = ']' then some (Jval.array [], r2)
            else
              match pItems f (c :: r2) with
              | some (xs, r3) => some (Jval.array xs, r3)
              | none => none) = _
  rw [skipWS_not _ _ hws]
  show (if c0 = ']' then some (Jval.array [], t1)
        else
          match pItems f (c0 :: t1) with
          | some (xs, r3) => some (Jval.array xs, r3)
          | none => none) = _
  rw [if_neg hne]

theorem pVal_object_cons (f : Nat) (t1 : List Char) :
    pVal (f + 1) ('{' :: ('"' :: t1)) =
      (match pFields f ('"' :: t1) with
       | some (fs, r3) => some (Jval.object fs, r3)
       | none => none) := by
  show (match skipWS ('"' :: t1) with
        | [] => none
        | c :: r2 =>
            if c = '}' then some (Jval.object [], r2)
            else
              match pFields f (c :: r2) with
              | some (fs, r3) => some (Jval.object fs, r3)
              | none => none) = _
  rw [skipWS_not _ _ (by decide)]
  show (if ('"' : Char) = '}' then some (Jval.object [], t1)
        else
          match pFields f ('"' :: t1) with
          | some (fs, r3) => some (Jval.object fs, r3)
          | none => none) = _
  rw [if_neg (by decide)]

mutual

theorem rtVal : ∀ (j : Jval) (fuel : Nat) (rest : List Char),
    numFree j = true → (renderJ j).length < fuel →
    pVal fuel (renderJ j ++ rest) = some (j, rest)
  | .null, fuel, rest, _, hf => by
      cases fuel with
      | zero => exact absurd hf (Nat.not_lt_zero _)
      | succ f => rfl
  | .boolean true, fuel, rest, _, hf => by
      cases fuel with
      | zero => exact absurd hf (Nat.not_lt_zero _)
      | succ f => rfl
  | .boolean false, fuel, rest, _, hf => by
      cases fuel with
      | zero => exact absurd hf (Nat.not_lt_zero _)
      | succ f => rfl
  | .number m e, fuel, rest, hnf, hf => by
      exact absurd hnf (by simp [numFree])
  | .string s, fuel, rest, _, hf => by
      cases fuel with
      | zero => exact absurd hf (Nat.not_lt_zero _)
      | succ f =>
          have harr : renderJ (.string s) ++ rest
              = '"' :: (s.data.flatMap escChar ++ '"' :: rest) := by
            simp [renderJ, encStr]
          rw [harr]
          show (match parseStrBody [] (s.data.flatMap escChar ++ '"' :: rest) with
                | some (s2, r2) => some (Jval.string s2, r2)
                | none => none) = some (.string s, rest)
          rw [parseStrBody_encStr]
  | .array [], fuel, rest, _, hf => by
      cases fuel with
      | zero => exact absurd hf (Nat.not_lt_zero _)
      | succ f => rfl
  | .array (x :: xs), fuel, rest, hnf, hf => by
      cases fuel with
      | zero => exact absurd hf (Nat.not_lt_zero _)
      | succ f =>
          have hnf2 : numFree x = true ∧ numFreeItems xs = true := by
            simpa [numFree, numFreeItems, Bool.and_eq_true] using hnf
          obtain ⟨c0, t0, hh, hws, hne, _⟩ := renderJ_head x hnf2.1
          have hitems : ∃ t1, renderItems (x :: xs) = c0 :: t1 := by
            cases xs with
            | nil => exact ⟨t0, by simpa [renderItems] using hh⟩
            | cons y r =>
                exact ⟨t0 ++ ',' :: renderItems (y :: r), by simp [renderItems, hh]⟩
          obtain ⟨t1, ht1⟩ := hitems
          have harr : renderJ (.array (x :: xs)) ++ rest
              = '[' :: (renderItems (x :: xs) ++ ']' :: rest) := by
            simp [renderJ]
          have hsplit : renderItems (x :: xs) ++ ']' :: rest
              = c0 :: (t1 ++ ']' :: rest) := by
            rw [ht1]
            simp
          have hbound : (renderItems (x :: xs)).length + 1 < f := by
            have hlen : (renderJ (.array (x :: xs))).length
                = (renderItems (x :: xs)).length + 2 := by
              simp [renderJ]
            omega
          rw [harr, hsplit, pVal_array_cons f c0 _ hws hne, ← hsplit]
          rw [rtItems x xs f rest hnf2.1 hnf2.2 hbound]
  | .object [], fuel, rest, _, hf => by
      cases fuel with
      | zero => exact absurd hf (Nat.not_lt_zero _)
      | succ f => rfl
  | .object ((k, v) :: fs), fuel, rest, hnf, hf => by
      cases fuel with
      | zero => exact absurd hf (Nat.not_lt_zero _)
      | succ f =>
          have hnf2 : numFree v = true ∧ numFreeFields fs = true := by
            simpa [numFree, numFreeFields, Bool.and_eq_true] using hnf
          have hfs : ∃ t1, renderFields ((k, v) :: fs) = '"' :: t1 := by
            cases fs with
            | nil =>
                exact ⟨k.data.flatMap escChar ++ '"' :: (':' :: renderJ v),
                  by simp [renderFields, encStr]⟩
            | cons f2 r =>
                exact ⟨k.data.flatMap escChar
                    ++ '"' :: (':' :: (renderJ v ++ ',' :: renderFields (f2 :: r))),
                  by simp [renderFields, encStr]⟩
          obtain ⟨t1, ht1⟩ := hfs
          have harr : renderJ (.object ((k, v) :: fs)) ++ rest
              = '{' :: (renderFields ((k, v) :: fs) ++ '}' :: rest) := by
            simp [renderJ]
          have hsplit : renderFields ((k, v) :: fs) ++ '}' :: rest
              = '"' :: (t1 ++ '}' :: rest) := by
            rw [ht1]
            simp
          have hbound : (renderFields ((k, v) :: fs)).length + 1 < f := by
            have hlen : (renderJ (.object ((k, v) :: fs))).length
                = (renderFields ((k, v) :: fs)).length + 2 := by
              simp [renderJ]
            omega
          rw [harr, hsplit, pVal_object_cons f _, ← hsplit]
          rw [rtFields k v fs f rest hnf2.1 hnf2.2 hbound]
termination_by j _ _ _ _ => sizeOf j

theorem rtItems : ∀ (x : Jval) (xs : List Jval) (fuel : Nat) (rest : List Char),
    numFree x = true → numFreeItems xs = true →
    (renderItems (x :: xs)).length + 1 < fuel →
    pItems fuel (renderItems (x :: xs) ++ ']' :: rest) = some (x :: xs, rest)
  | x, [], fuel, rest, hx, _, hf => by
      cases fuel with
      | zero => exact absurd hf (Nat.not_lt_zero _)
      | succ f =>
          have h1 : renderItems [x] ++ ']' :: rest = renderJ x ++ ']' :: rest := by
            simp [renderItems]
          have hb : (renderJ x).length < f := by
            have hlen2 : (renderItems [x]).length = (renderJ x).length := by
              simp [renderItems]
            omega
          rw [h1]
          show (match pVal f (renderJ x ++ ']' :: rest) with
                | none => none
                | some (v, r) =>
                    match skipWS r with
                    | ',' :: r2 =>
                        match pItems f r2 with
                        | some (vs, r3) => some (v :: vs, r3)
                        | none => none
                    | ']' :: r2 => some ([v], r2)
                    | _ => none) = some ([x], rest)
          rw [rtVal x f (']' :: rest) hx hb]
          rfl
  | x, y :: ys, fuel, rest, hx, hys, hf => by
      cases fuel with
      | zero => exact absurd hf (Nat.not_lt_zero _)
      | succ f =>
          have hys2 : numFree y = true ∧ numFreeItems ys = true := by
            simpa [numFreeItems, Bool.and_eq_true] using hys
          have h1 : renderItems (x :: y :: ys) ++ ']' :: rest
              = renderJ x ++ (',' :: (renderItems (y :: ys) ++ ']' :: rest)) := by
            simp [renderItems]
          have hlen : (renderItems (x :: y :: ys)).length
              = (renderJ x).length + 1 + (renderItems (y :: ys)).length := by
            simp [renderItems]
            omega
          have hb1 : (renderJ x).length < f := by omega
          have hb2 : (renderItems (y :: ys)).length + 1 < f := by omega
          rw [h1]
          show (match pVal f (renderJ x ++ (',' :: (renderItems (y :: ys) ++ ']' :: rest))) with
                | none => none
                | some (v, r) =>
                    match skipWS r with
                    | ',' :: r2 =>
                        match pItems f r2 with
                        | some (vs, r3) => some (v :: vs, r3)
                        | none => none
                    | ']' :: r2 => some ([v], r2)
                    | _ => none) = some (x :: y :: ys, rest)
          rw [rtVal x f _ hx hb1]
          show (match pItems f (renderItems (y :: ys) ++ ']' :: rest) with
                | some (vs, r3) => some (x :: vs, r3)
                | none => none) = some (x :: y :: ys, rest)
          rw [rtItems y ys f rest hys2.1 hys2.2 hb2]
termination_by x xs _ _ _ _ _ => sizeOf x + sizeOf xs

theorem rtFields : ∀ (k : String) (v : Jval) (fs : List (String × Jval))
    (fuel : Nat) (rest : List Char),
    numFree v = true → numFreeFields fs = true →
    (renderFields ((k, v) :: fs)).length + 1 < fuel →
    pFields fuel (renderFields ((k, v) :: fs) ++ '}' :: rest) = some ((k, v) :: fs, rest)
  | k, v, [], fuel, rest, hv, _, hf => by
      cases fuel with
      | zero => exact absurd hf (Nat.not_lt_zero _)
      | succ f =>
          have h1 : renderFields [(k, v)] ++ '}' :: rest
              = '"' :: (k.data.flatMap escChar ++ '"' :: (':' :: (renderJ v ++ '}' :: rest))) := by
            simp [renderFields, encStr]
          have hb : (renderJ v).length < f := by
            have : (renderFields [(k, v)]).length
                = (encStr k).length + 1 + (renderJ v).length := by
              simp [renderFields]
              omega
            omega
          rw [h1]
          show (match parseStrBody []
                  (k.data.flatMap escChar ++ '"' :: (':' :: (renderJ v ++ '}' :: rest))) with
                | none => none
                | some (k2, r1) =>
                    match skipWS r1 with
                    | ':' :: r2 =>
                        match pVal f r2 with
                        | none => none
                        | some (v2, r3) =>
                            match skipWS r3 with
                            | ',' :: r4 =>
                                match pFields f r4 with
                                | some (fs2, r5) => some ((k2, v2) :: fs2, r5)
                                | none => none
                            | '}' :: r4 => some ([(k2, v2)], r4)
                            | _ => none
                    | _ => none) = some ([(k, v)], rest)
          rw [parseStrBody_encStr]
          show (match pVal f (renderJ v ++ '}' :: rest) with
                | none => none
                | some (v2, r3) =>
                    match skipWS r3 with
                    | ',' :: r4 =>
                        match pFields f r4 with
                        | some (fs2, r5) => some ((k, v2) :: fs2, r5)
                        | none => none
                    | '}' :: r4 => some ([(k, v2)], r4)
                    | _ => none) = some ([(k, v)], rest)
          rw [rtVal v f _ hv hb]
          rfl
  | k, v, (k2, v2) :: fs, fuel, rest, hv, hfs, hf => by
      cases fuel with
      | zero => exact absurd hf (Nat.not_lt_zero _)
      | succ f =>
          have hfs2 : numFree v2 = true ∧ numFreeFields fs = true := by
            simpa [numFreeFields, Bool.and_eq_true] using hfs
          have h1 : renderFields ((k, v) :: (k2, v2) :: fs) ++ '}' :: rest
              = '"' :: (k.data.flatMap escChar
                  ++ '"' :: (':' :: (renderJ v
                      ++ ',' :: (renderFields ((k2, v2) :: fs) ++ '}' :: rest)))) := by
            simp [renderFields, encStr]
          have hlen : (renderFields ((k, v) :: (k2, v2) :: fs)).length
              = (encStr k).length + 2 + (renderJ v).length
                + (renderFields ((k2, v2) :: fs)).length := by
            simp [renderFields]
            omega
          have hb1 : (renderJ v).length < f := by omega
          have hb2 : (renderFields ((k2, v2) :: fs)).length + 1 < f := by omega
          rw [h1]
          show (match parseStrBody []
                  (k.data.flatMap escChar
                    ++ '"' :: (':' :: (renderJ v
                        ++ ',' :: (renderFields ((k2, v2) :: fs) ++ '}' :: rest)))) with
                | none => none
                | some (kk, r1) =>
                    match skipWS r1 with
                    | ':' :: r2 =>
                        match pVal f r2 with
                        | none => none
                        | some (vv, r3) =>
                            match skipWS r3 with
                            | ',' :: r4 =>
                                match pFields f r4 with
                                | some (fs2, r5) => some ((kk, vv) :: fs2, r5)
                                | none => none
                            | '}' :: r4 => some ([(kk, vv)], r4)
                            | _ => none
                    | _ => none) = some ((k, v) :: (k2, v2) :: fs, rest)
          rw [parseStrBody_encStr]
          show (match pVal f (renderJ v
                  ++ ',' :: (renderFields ((k2, v2) :: fs) ++ '}' :: rest)) with
                | none => none
                | some (vv, r3) =>
                    match skipWS r3 with
                    | ',' :: r4 =>
                        match pFields f r4 with
                        | some (fs2, r5) => some ((k, vv) :: fs2, r5)
                        | none => none
                    | '}' :: r4 => some ([(k, vv)], r4)
                    | _ => none) = some ((k, v) :: (k2, v2) :: fs, rest)
          rw [rtVal v f _ hv hb1]
          show (match pFields f (renderFields ((k2, v2) :: fs) ++ '}' :: rest) with
                | some (fs2, r5) => some ((k, v) :: fs2, r5)
                | none => none) = some ((k, v) :: (k2, v2) :: fs, rest)
          rw [rtFields k2 v2 fs f rest hfs2.1 hfs2.2 hb2]
termination_by _ v fs _ _ _ _ _ => sizeOf v + sizeOf fs

end

end Codec

namespace Codec

theorem loads_dumps (j : Jval) (h : numFree j = true) : loads (dumps j) = some j := by
  have hp := rtVal j ((renderJ j).length + 1) [] h (by omega)
  rw [List.append_nil] at hp
  show (match pVal ((renderJ j).length + 1) (renderJ j) with
        | some (j2, r) => if (skipWS r).isEmpty then some j2 else none
        | none => none) = some j
  rw [hp]
  rfl

theorem envelopeFields_numFree (x : ArticleSummaryEnvelope) :
    numFree (.object (envelopeFields x)) = true := by
  simp [numFree, numFreeFields, envelopeFields]

end Codec

/-- C4: the codec round-trips every valid `ArticleSummaryEnvelope` losslessly.
For all eight string fields — arbitrary unicode, including non-ASCII text and
characters the serializer must escape — decoding the compact UTF-8 wire bytes
produced by `to_json` yields exactly the original mapping, field for field and
in order. -/
theorem C4_envelope_codec_roundtrip (x : Codec.ArticleSummaryEnvelope) :
    Codec.from_json (Codec.to_json (Codec.envelopeFields x)) =
      some (Codec.Jval.object (Codec.envelopeFields x)) :=
  Codec.loads_dumps (Codec.Jval.object (Codec.envelopeFields x))
    (Codec.envelopeFields_numFree x)

/-- Counterexample to C8 as stated: `from_json` applied to the JSON array
`[]` does not fail with a malformed-payload error — it returns the parsed
array, because `from_json` is a bare `json.loads` with no top-level type
check. -/
theorem C8_counterexample_array_not_rejected :
    Codec.from_json "[]" = some (Codec.Jval.array []) := by
  rfl

/-- C8 amended: `from_json` fails (raises a JSON decode error) when its input
is not valid JSON, but it performs no top-level type check: a valid JSON
document whose top-level value is not an object — an array, string, boolean
or null — is parsed and returned as-is rather than rejected.  The first
conjunct accepts every serializable JSON document regardless of its top-level
constructor; the remaining conjuncts show decode failures on malformed
inputs (empty input, an unclosed object brace, an unclosed array). -/
theorem C8_from_json_no_object_check :
    (∀ j : Codec.Jval, Codec.numFree j = true →
      Codec.from_json (Codec.dumps j) = some j) ∧
    Codec.from_json "" = none ∧
    Codec.from_json (String.mk ['{']) = none ∧
    Codec.from_json "[1,2" = none := by
  refine ⟨fun j h => Codec.loads_dumps j h, ?_, ?_, ?_⟩ <;> rfl

/-- Witness for the amended C8: a concrete top-level array decodes to itself
rather than being rejected. -/
theorem C8_from_json_no_object_check_witness :
    Codec.from_json (Codec.dumps (Codec.Jval.array [Codec.Jval.string "a"])) =
      some (Codec.Jval.array [Codec.Jval.string "a"]) :=
  C8_from_json_no_object_check.1 (Codec.Jval.array [Codec.Jval.string "a"]) (by decide)
